import Mathlib

/-!
Verification of the LlmTuner data-ingestion and training-control code.

The definitions below are a shallow embedding of the Python sources:

* `read_data` embeds `read_data` from `gpt2_tuning.py` (the dataset
  ingestion routine).  Python exceptions that can escape the function are
  modelled with `Except PyErr`; the `json` module's `loads`/`dumps` are
  embedded as `pyJsonLoads`/`pyJsonDumps` over an explicit `Json` value
  type.
* `script_read_data` embeds the second copy of `read_data` that
  `create_gpt2_script` in `server/main.py` writes into its generated
  script.
* `start_training` embeds the `/api/start-training` handler from
  `server/main.py`, with the per-file S3/subprocess interaction abstracted
  into an environment parameter.
* `generate_job_name` embeds `generate_job_name` from
  `server/sagemaker_training.py`, with the wall-clock timestamp passed as
  an explicit argument.

Modelling notes (divergences at the fringe of the embedding):
* JSON numbers are kept as their source lexeme (`Json.num lit`).  Python
  would convert a float lexeme to a `float` and re-print it normalised
  (`1e2` prints as `100.0`); the lexeme model prints the lexeme itself.
  No claim exercises a re-printed non-integer number.
* Python strings may hold lone surrogates; Lean `Char` cannot, so a lone
  `\u` surrogate escape decodes to `Char.ofNat` of its code, which Lean
  maps to `'\x00'`.  No claim exercises lone surrogates.
* `str.strip()` is modelled over the ASCII whitespace characters
  (space, tab, LF, CR, VT, FF); Python additionally strips some rare
  Unicode spaces.
* `str.isalnum()` is modelled as ASCII letters and digits; Python also
  accepts other Unicode letters and digits.
-/

namespace LlmTuner

/-! ## Python string primitives -/

/-- Python `str.strip()` whitespace set (ASCII part): space, TAB, LF, CR,
VT (\x0b) and FF (\x0c). -/
def pyIsSpace (c : Char) : Bool :=
  c = ' ' || c = '\t' || c = '\n' || c = '\r' || c = '\x0b' || c = '\x0c'

/-- Strip `pyIsSpace` characters from both ends of a character list. -/
def pyStripList (cs : List Char) : List Char :=
  ((cs.dropWhile pyIsSpace).reverse.dropWhile pyIsSpace).reverse

/-- Python `str.strip()` with no argument. -/
def pyStrip (s : String) : String :=
  String.mk (pyStripList s.data)

/-- Python `str.split('\n')` on a character list: always returns at least
one (possibly empty) piece; a trailing newline yields a trailing empty
piece, exactly like Python. -/
def splitNL : List Char → List (List Char)
  | [] => [[]]
  | c :: cs =>
    if c = '\n' then [] :: splitNL cs
    else
      match splitNL cs with
      | [] => [[c]]
      | t :: ts => (c :: t) :: ts

/-- Python `file_content.split('\n')`. -/
def pyLines (s : String) : List String :=
  (splitNL s.data).map String.mk

/-! ## JSON values

`Json` is the image of Python's `json.loads`: `null`, booleans, numbers,
strings, arrays and objects.  A number keeps its source lexeme (see the
modelling notes above); the extra lexemes `NaN`, `Infinity` and
`-Infinity` are accepted by Python's `json.loads` and produced by
`json.dumps`, so they are number lexemes here as well.  An object is the
ordered key/value list of the Python dict: `json.loads` keeps the
position of the first occurrence of a duplicated key and the value of the
last, which `insertKey` reproduces. -/

inductive Json where
  | null : Json
  | bool (b : Bool) : Json
  | num (lit : String) : Json
  | str (s : String) : Json
  | arr (elems : List Json) : Json
  | obj (members : List (String × Json)) : Json

/-- Python `dict.get k`: the value stored for `k`, if any.  Dicts built by
`json.loads` have pairwise distinct keys, so the first match is the only
one. -/
def pyDictGet (ms : List (String × Json)) (k : String) : Option Json :=
  (ms.find? (fun kv => kv.1 == k)).map (fun kv => kv.2)

/-- `d[k] = v` on a Python dict as an ordered association list: an
existing key keeps its position and takes the new value, a new key is
appended. -/
def insertKey (ms : List (String × Json)) (k : String) (v : Json) :
    List (String × Json) :=
  match ms with
  | [] => [(k, v)]
  | (k0, v0) :: rest =>
    if k0 = k then (k0, v) :: rest else (k0, v0) :: insertKey rest k v

/-- Build a Python dict from parsed members in order (`d[k] = v` for each
pair left to right). -/
def collapseKeys (ms : List (String × Json)) : List (String × Json) :=
  ms.foldl (fun acc kv => insertKey acc kv.1 kv.2) []

/-- All the mantissa digits of a number lexeme are `0` (and there is at
least one digit): such a lexeme denotes the number zero.  `NaN` and
`Infinity` contain no digit and are therefore not zero. -/
def numLitIsZero (lit : String) : Bool :=
  let mantissa := lit.data.takeWhile (fun c => c ≠ 'e' && c ≠ 'E')
  let digits := mantissa.filter Char.isDigit
  !digits.isEmpty && digits.all (fun c => c = '0')

/-- Python truthiness of a value in the image of `json.loads`:
`None`, `False`, zero, `''`, `[]` and an empty dict are falsy. -/
def pyTruthy : Json → Bool
  | .null => false
  | .bool b => b
  | .num lit => !numLitIsZero lit
  | .str s => s != ""
  | .arr es => !es.isEmpty
  | .obj ms => !ms.isEmpty

/-! ## Embedding of `json.loads`

A recursive-descent scanner over `List Char`, mirroring the strict-mode
behaviour of Python's `json` module: insignificant whitespace is space,
TAB, LF and CR; strings require `"` quotes, reject raw control
characters, accept the escapes `\" \\ \/ \b \f \n \r \t \uXXXX` and
recombine surrogate pairs; numbers follow `-?(0|[1-9][0-9]*)(\.[0-9]+)?
([eE][+-]?[0-9]+)?`, and the extensions `NaN`, `Infinity`, `-Infinity`
are accepted; a document is one value with nothing but whitespace after
it.  The mutual value scanner is written with a fuel argument; `loads`
passes `length + 1` fuel, which is proved sufficient for every printed
value below. -/

/-- Value of one hexadecimal digit. -/
def hexVal (c : Char) : Option Nat :=
  if '0' ≤ c ∧ c ≤ '9' then some (c.toNat - 48)
  else if 'a' ≤ c ∧ c ≤ 'f' then some (c.toNat - 87)
  else if 'A' ≤ c ∧ c ≤ 'F' then some (c.toNat - 55)
  else none

/-- Value of a four-digit hexadecimal escape. -/
def hex4 (a b c d : Char) : Option Nat :=
  match hexVal a, hexVal b, hexVal c, hexVal d with
  | some x, some y, some z, some w => some (4096 * x + 256 * y + 16 * z + w)
  | _, _, _, _ => none

/-- Scanner for the body of a JSON string, written with a fuel argument
so that it is structurally recursive (and therefore reduces inside the
kernel).  `esc = false` reads ordinary characters; `esc = true` reads the
character after a backslash.  Every step consumes at least one character,
so `length + 1` fuel always suffices.  A raw control character or an
unknown escape is an error (strict mode); a `\u` escape in the
high-surrogate range pairs with an immediately following low-surrogate
`\u` escape, and an unpaired surrogate is kept alone, exactly as
Python's scanner does. -/
def parseStrF : Nat → Bool → List Char → Option (List Char × List Char)
  | 0, _, _ => none
  | Nat.succ fuel, false, cs =>
    match cs with
    | [] => none
    | c :: rest =>
      if c = '"' then some ([], rest)
      else if c = '\\' then parseStrF fuel true rest
      else if c.toNat < 0x20 then none
      else (parseStrF fuel false rest).map (fun p => (c :: p.1, p.2))
  | Nat.succ fuel, true, cs =>
    match cs with
    | [] => none
    | e :: rest =>
      if e = '"' then (parseStrF fuel false rest).map (fun p => ('"' :: p.1, p.2))
      else if e = '\\' then
        (parseStrF fuel false rest).map (fun p => ('\\' :: p.1, p.2))
      else if e = '/' then
        (parseStrF fuel false rest).map (fun p => ('/' :: p.1, p.2))
      else if e = 'b' then
        (parseStrF fuel false rest).map (fun p => ('\x08' :: p.1, p.2))
      else if e = 'f' then
        (parseStrF fuel false rest).map (fun p => ('\x0c' :: p.1, p.2))
      else if e = 'n' then
        (parseStrF fuel false rest).map (fun p => ('\n' :: p.1, p.2))
      else if e = 'r' then
        (parseStrF fuel false rest).map (fun p => ('\r' :: p.1, p.2))
      else if e = 't' then
        (parseStrF fuel false rest).map (fun p => ('\t' :: p.1, p.2))
      else if e = 'u' then
        match rest with
        | h1 :: h2 :: h3 :: h4 :: rest2 =>
          match hex4 h1 h2 h3 h4 with
          | none => none
          | some n1 =>
            if 0xD800 ≤ n1 ∧ n1 ≤ 0xDBFF then
              match rest2 with
              | '\\' :: 'u' :: g1 :: g2 :: g3 :: g4 :: rest3 =>
                match hex4 g1 g2 g3 g4 with
                | none => none
                | some n2 =>
                  if 0xDC00 ≤ n2 ∧ n2 ≤ 0xDFFF then
                    (parseStrF fuel false rest3).map
                      (fun p =>
                        (Char.ofNat
                            (0x10000 + (n1 - 0xD800) * 0x400 +
                              (n2 - 0xDC00)) :: p.1,
                          p.2))
                  else
                    (parseStrF fuel true ('u' :: g1 :: g2 :: g3 :: g4 :: rest3)).map
                      (fun p => (Char.ofNat n1 :: p.1, p.2))
              | _ =>
                (parseStrF fuel false rest2).map
                  (fun p => (Char.ofNat n1 :: p.1, p.2))
            else
              (parseStrF fuel false rest2).map
                (fun p => (Char.ofNat n1 :: p.1, p.2))
        | _ => none
      else none

/-- Body of a JSON string after the opening quote: the decoded characters
and the input after the closing quote. -/
def parseStringBody (cs : List Char) : Option (List Char × List Char) :=
  parseStrF (cs.length + 1) false cs

/-- Longest digit run at the head of the input, and the rest. -/
def spanDigits (cs : List Char) : List Char × List Char :=
  (cs.takeWhile Char.isDigit, cs.dropWhile Char.isDigit)

/-- Optional minus sign of a number lexeme. -/
def parseSign : List Char → List Char × List Char
  | [] => ([], [])
  | c :: r => if c = '-' then (['-'], r) else ([], c :: r)

/-- Integer part of a number lexeme: `0` or a nonzero digit followed by
digits. -/
def parseIntPart : List Char → Option (List Char × List Char)
  | [] => none
  | c :: r =>
    if c = '0' then some (['0'], r)
    else if c.isDigit then some (c :: (spanDigits r).1, (spanDigits r).2)
    else none

/-- Optional fraction part `.digits` of a number lexeme. -/
def parseFracPart : List Char → Option (List Char × List Char)
  | [] => some ([], [])
  | c :: r =>
    if c = '.' then
      if (spanDigits r).1.isEmpty then none
      else some ('.' :: (spanDigits r).1, (spanDigits r).2)
    else some ([], c :: r)

/-- Optional exponent part `[eE][+-]?digits` of a number lexeme. -/
def parseExpPart : List Char → Option (List Char × List Char)
  | [] => some ([], [])
  | e :: r =>
    if e = 'e' ∨ e = 'E' then
      match r with
      | [] => none
      | s :: r2 =>
        if s = '+' ∨ s = '-' then
          if (spanDigits r2).1.isEmpty then none
          else some (e :: s :: (spanDigits r2).1, (spanDigits r2).2)
        else
          if (spanDigits (s :: r2)).1.isEmpty then none
          else some (e :: (spanDigits (s :: r2)).1, (spanDigits (s :: r2)).2)
    else some ([], e :: r)

/-- A whole number lexeme and the input after it. -/
def parseNumber (cs : List Char) : Option (List Char × List Char) :=
  let s := parseSign cs
  match parseIntPart s.2 with
  | none => none
  | some ip =>
    match parseFracPart ip.2 with
    | none => none
    | some fp =>
      match parseExpPart fp.2 with
      | none => none
      | some ep => some (s.1 ++ (ip.1 ++ (fp.1 ++ ep.1)), ep.2)

/-- JSON insignificant whitespace. -/
def jsonWsChar (c : Char) : Bool :=
  c = ' ' || c = '\t' || c = '\n' || c = '\r'

/-- Drop insignificant whitespace. -/
def skipWs (cs : List Char) : List Char :=
  cs.dropWhile jsonWsChar

/-- The JSON value scanner, with a fuel argument so it is structurally
recursive (and reduces inside the kernel).  `mode = 0` reads one value at
the head of the input (no leading whitespace); `mode = 1` reads, after an
array element, `, element ... ]` or `]`, returning the elements as
`Json.arr`; `mode = 2` reads, after an object member,
`, "key": value ... \x7d` or `\x7d`, returning the members as
`Json.obj` (without key collapsing, which happens when the object is
closed in mode 0). -/
def parseJF : Nat → Nat → List Char → Option (Json × List Char)
  | 0, _, _ => none
  | Nat.succ fuel, 0, cs =>
    match cs with
    | [] => none
    | c :: rest =>
      if c = 'n' then
        if rest.take 3 = ['u', 'l', 'l'] then some (.null, rest.drop 3)
        else none
      else if c = 't' then
        if rest.take 3 = ['r', 'u', 'e'] then some (.bool true, rest.drop 3)
        else none
      else if c = 'f' then
        if rest.take 4 = ['a', 'l', 's', 'e'] then
          some (.bool false, rest.drop 4)
        else none
      else if c = 'N' then
        if rest.take 2 = ['a', 'N'] then some (.num "NaN", rest.drop 2)
        else none
      else if c = 'I' then
        if rest.take 7 = ['n', 'f', 'i', 'n', 'i', 't', 'y'] then
          some (.num "Infinity", rest.drop 7)
        else none
      else if c = '"' then
        (parseStringBody rest).map (fun p => (.str (String.mk p.1), p.2))
      else if c = '[' then
        match skipWs rest with
        | ']' :: r2 => some (.arr [], r2)
        | cs2 =>
          match parseJF fuel 0 cs2 with
          | none => none
          | some (v, r2) =>
            match parseJF fuel 1 r2 with
            | some (.arr vs, r3) => some (.arr (v :: vs), r3)
            | _ => none
      else if c = '{' then
        match skipWs rest with
        | '}' :: r2 => some (.obj [], r2)
        | '"' :: r2 =>
          match parseStringBody r2 with
          | none => none
          | some (k, r3) =>
            match skipWs r3 with
            | ':' :: r4 =>
              match parseJF fuel 0 (skipWs r4) with
              | none => none
              | some (v, r5) =>
                match parseJF fuel 2 r5 with
                | some (.obj ms, r6) =>
                  some (.obj (collapseKeys ((String.mk k, v) :: ms)), r6)
                | _ => none
            | _ => none
        | _ => none
      else if c = '-' then
        if rest.take 8 = ['I', 'n', 'f', 'i', 'n', 'i', 't', 'y'] then
          some (.num "-Infinity", rest.drop 8)
        else
          match parseNumber (c :: rest) with
          | some (lex, r) => some (.num (String.mk lex), r)
          | none => none
      else
        match parseNumber (c :: rest) with
        | some (lex, r) => some (.num (String.mk lex), r)
        | none => none
  | Nat.succ fuel, 1, cs =>
    match skipWs cs with
    | ']' :: r => some (.arr [], r)
    | ',' :: r =>
      match parseJF fuel 0 (skipWs r) with
      | none => none
      | some (v, r2) =>
        match parseJF fuel 1 r2 with
        | some (.arr vs, r3) => some (.arr (v :: vs), r3)
        | _ => none
    | _ => none
  | Nat.succ fuel, 2, cs =>
    match skipWs cs with
    | '}' :: r => some (.obj [], r)
    | ',' :: r =>
      match skipWs r with
      | '"' :: r2 =>
        match parseStringBody r2 with
        | none => none
        | some (k, r3) =>
          match skipWs r3 with
          | ':' :: r4 =>
            match parseJF fuel 0 (skipWs r4) with
            | none => none
            | some (v, r5) =>
              match parseJF fuel 2 r5 with
              | some (.obj ms, r6) => some (.obj ((String.mk k, v) :: ms), r6)
              | _ => none
          | _ => none
      | _ => none
    | _ => none
  | Nat.succ _, Nat.succ (Nat.succ (Nat.succ _)), _ => none

/-- Python `json.loads`; `none` is a `json.JSONDecodeError`. -/
def pyJsonLoads (s : String) : Option Json :=
  match parseJF (s.data.length + 1) 0 (skipWs s.data) with
  | some (v, rest) => if skipWs rest = [] then some v else none
  | none => none

/-! ## Embedding of `json.dumps`

Default configuration: separators `", "` and `": "`, `ensure_ascii=True`
(every character outside `0x20`–`0x7e` written as a `\uXXXX` escape, an
astral character as a surrogate pair). -/

/-- Lowercase hexadecimal digit. -/
def hexDigitChar (n : Nat) : Char :=
  if n < 10 then Char.ofNat (48 + n) else Char.ofNat (87 + n)

/-- Four lowercase hexadecimal digits. -/
def toHex4 (n : Nat) : List Char :=
  [hexDigitChar (n / 4096 % 16), hexDigitChar (n / 256 % 16),
   hexDigitChar (n / 16 % 16), hexDigitChar (n % 16)]

/-- One character of a JSON string as `json.dumps` writes it. -/
def escChar (c : Char) : List Char :=
  if c = '"' then ['\\', '"']
  else if c = '\\' then ['\\', '\\']
  else if c = '\n' then ['\\', 'n']
  else if c = '\r' then ['\\', 'r']
  else if c = '\t' then ['\\', 't']
  else if c = '\x08' then ['\\', 'b']
  else if c = '\x0c' then ['\\', 'f']
  else if c.toNat < 0x20 then '\\' :: 'u' :: toHex4 c.toNat
  else if c.toNat ≤ 0x7e then [c]
  else if c.toNat < 0x10000 then '\\' :: 'u' :: toHex4 c.toNat
  else
    '\\' :: 'u' :: (toHex4 (0xD800 + (c.toNat - 0x10000) / 0x400) ++
      ('\\' :: 'u' :: toHex4 (0xDC00 + (c.toNat - 0x10000) % 0x400)))

/-- The escaped body of a JSON string. -/
def escString (s : String) : List Char :=
  (s.data.map escChar).flatten

/-- A JSON string with its quotes. -/
def quoteString (s : String) : List Char :=
  '"' :: (escString s ++ ['"'])

mutual

/-- Python `json.dumps` with its default configuration, as characters. -/
def dumpsList : Json → List Char
  | .null => ['n', 'u', 'l', 'l']
  | .num lit => lit.data
  | .str s => quoteString s
  | .bool true => ['t', 'r', 'u', 'e']
  | .bool false => ['f', 'a', 'l', 's', 'e']
  | .arr [] => ['[', ']']
  | .arr (v :: vs) => '[' :: (dumpsList v ++ (dumpsArrTail vs ++ [']']))
  | .obj [] => ['{', '}']
  | .obj (m :: ms) => '{' :: (dumpsMember m ++ (dumpsObjTail ms ++ ['}']))

/-- One object member, `"key": value`. -/
def dumpsMember : String × Json → List Char
  | (k, v) => quoteString k ++ (':' :: ' ' :: dumpsList v)

/-- `, element` for each further array element. -/
def dumpsArrTail : List Json → List Char
  | [] => []
  | v :: vs => ',' :: ' ' :: (dumpsList v ++ dumpsArrTail vs)

/-- `, "key": value` for each further object member. -/
def dumpsObjTail : List (String × Json) → List Char
  | [] => []
  | m :: ms => ',' :: ' ' :: (dumpsMember m ++ dumpsObjTail ms)

end

/-- Python `json.dumps` with its default configuration. -/
def pyJsonDumps (v : Json) : String :=
  String.mk (dumpsList v)

/-! ## Python `str()` of a parsed JSON value

`str(item)` on the result of `json.loads`: identity on a `str`, `None`
/`True`/`False` for the singletons, and `repr` for containers (so nested
strings are single-quoted).  The `repr` of a string is modelled for the
common case: Python additionally hex-escapes unprintable non-ASCII
characters, which no claim exercises. -/

/-- An ASCII apostrophe. -/
def squote : Char := Char.ofNat 39

/-- One character of a Python string `repr` quoted with `q`. -/
def pyReprCharIn (q : Char) (c : Char) : List Char :=
  if c = '\\' then ['\\', '\\']
  else if c = q then ['\\', q]
  else if c = '\n' then ['\\', 'n']
  else if c = '\r' then ['\\', 'r']
  else if c = '\t' then ['\\', 't']
  else if c.toNat < 0x20 ∨ c.toNat = 0x7f then
    '\\' :: 'x' :: [hexDigitChar (c.toNat / 16), hexDigitChar (c.toNat % 16)]
  else [c]

/-- Python `repr` of a `str`: single-quoted, double-quoted when the text
holds an apostrophe but no double quote. -/
def pyReprStr (s : String) : List Char :=
  let q : Char := if s.data.contains squote ∧ ¬ s.data.contains '"' then '"' else squote
  q :: ((s.data.map (pyReprCharIn q)).flatten ++ [q])

mutual

/-- Python `repr` of a value in the image of `json.loads`. -/
def pyReprJson : Json → List Char
  | .null => ['N', 'o', 'n', 'e']
  | .bool true => ['T', 'r', 'u', 'e']
  | .bool false => ['F', 'a', 'l', 's', 'e']
  | .num lit => lit.data
  | .str s => pyReprStr s
  | .arr [] => ['[', ']']
  | .arr (v :: vs) => '[' :: (pyReprJson v ++ (pyReprArrTail vs ++ [']']))
  | .obj [] => ['{', '}']
  | .obj (m :: ms) => '{' :: (pyReprMember m ++ (pyReprObjTail ms ++ ['}']))

/-- One dict member, `'key': value`, inside a `repr`. -/
def pyReprMember : String × Json → List Char
  | (k, v) => pyReprStr k ++ (':' :: ' ' :: pyReprJson v)

/-- `, element` for each further list element inside a `repr`. -/
def pyReprArrTail : List Json → List Char
  | [] => []
  | v :: vs => ',' :: ' ' :: (pyReprJson v ++ pyReprArrTail vs)

/-- `, 'key': value` for each further dict member inside a `repr`. -/
def pyReprObjTail : List (String × Json) → List Char
  | [] => []
  | m :: ms => ',' :: ' ' :: (pyReprMember m ++ pyReprObjTail ms)

end

/-- Python `str()` of a value in the image of `json.loads`. -/
def pyStr : Json → String
  | .str s => s
  | v => String.mk (pyReprJson v)

/-! ## `read_data` from `gpt2_tuning.py`

The function returns `{"text": texts}`; the model returns the `texts`
list.  The only Python exception that can escape `read_data` (for decoded
text input) is an `AttributeError`: `data.get(...)` on a parse result
that is not a dict, or `text.strip()` on a truthy extracted field value
that is not a string.  `json.JSONDecodeError` is always caught inside the
function. -/

/-- A Python exception escaping the modelled code. -/
inductive PyErr where
  | attributeError (msg : String) : PyErr
deriving DecidableEq, Repr

/-- Decidable equality of results, for concrete evaluations. -/
instance exceptDecEq {ε α : Type} [DecidableEq ε] [DecidableEq α] :
    DecidableEq (Except ε α)
  | .ok a, .ok b =>
    if h : a = b then isTrue (by rw [h])
    else isFalse (fun hh => h (Except.ok.inj hh))
  | .ok _, .error _ => isFalse (fun hh => Except.noConfusion hh)
  | .error _, .ok _ => isFalse (fun hh => Except.noConfusion hh)
  | .error e, .error f =>
    if h : e = f then isTrue (by rw [h])
    else isFalse (fun hh => h (Except.error.inj hh))

/-- The chain `d.get(k1) or d.get(k2) or ...`: the first present and
truthy value, if any. -/
def firstTruthyGet (ms : List (String × Json)) : List String → Option Json
  | [] => none
  | k :: ks =>
    match pyDictGet ms k with
    | some v => if pyTruthy v then some v else firstTruthyGet ms ks
    | none => firstTruthyGet ms ks

/-- One element of a parsed `.json` array, lines 24-31 of
`gpt2_tuning.py`: a dict yields the first truthy of `text`, `content`,
`description`, else its `json.dumps`, appended stripped when the
`if text and text.strip()` guard passes; a non-dict yields `str(item)`
unconditionally.  A truthy non-string field value makes `text.strip()`
raise `AttributeError`. -/
def jsonItemSample (item : Json) : Except PyErr (Option String) :=
  match item with
  | .obj ms =>
    match firstTruthyGet ms ["text", "content", "description"] with
    | some (.str s) =>
      .ok (if s ≠ "" ∧ pyStrip s ≠ "" then some (pyStrip s) else none)
    | some _ => .error (.attributeError "strip")
    | none =>
      .ok (if pyJsonDumps item ≠ "" ∧ pyStrip (pyJsonDumps item) ≠ "" then
        some (pyStrip (pyJsonDumps item)) else none)
  | item0 => .ok (some (pyStr item0))

/-- The `for item in data` loop of the `.json` branch. -/
def processJsonItems : List Json → Except PyErr (List String)
  | [] => .ok []
  | item :: rest =>
    match jsonItemSample item with
    | .error e => .error e
    | .ok none => processJsonItems rest
    | .ok (some s) =>
      match processJsonItems rest with
      | .error e => .error e
      | .ok ts => .ok (s :: ts)

/-- One nonempty stripped `.jsonl` line, lines 52-59 of `gpt2_tuning.py`:
a parse failure keeps the raw (stripped) line; a parsed dict yields the
first truthy of `text`, `content`, else its `json.dumps`, under the same
guard as the `.json` branch; `data.get` on a parsed non-dict raises
`AttributeError`. -/
def jsonlLineSample (line : String) : Except PyErr (Option String) :=
  match pyJsonLoads line with
  | none => .ok (some line)
  | some (.obj ms) =>
    match firstTruthyGet ms ["text", "content"] with
    | some (.str s) =>
      .ok (if s ≠ "" ∧ pyStrip s ≠ "" then some (pyStrip s) else none)
    | some _ => .error (.attributeError "strip")
    | none =>
      .ok (if pyJsonDumps (.obj ms) ≠ "" ∧ pyStrip (pyJsonDumps (.obj ms)) ≠ "" then
        some (pyStrip (pyJsonDumps (.obj ms))) else none)
  | some _ => .error (.attributeError "get")

/-- The `for line in file_content.split('
')` loop of the `.jsonl`
branch; an empty stripped line is skipped before parsing. -/
def processJsonlLines : List String → Except PyErr (List String)
  | [] => .ok []
  | rawLine :: rest =>
    if pyStrip rawLine = "" then processJsonlLines rest
    else
      match jsonlLineSample (pyStrip rawLine) with
      | .error e => .error e
      | .ok none => processJsonlLines rest
      | .ok (some s) =>
        match processJsonlLines rest with
        | .error e => .error e
        | .ok ts => .ok (s :: ts)

/-- Nonempty stripped lines, the comprehension of the `.json` fallback
(`except json.JSONDecodeError`). -/
def nonEmptyStrippedLines (content : String) : List String :=
  (pyLines content).filterMap
    (fun l => if pyStrip l ≠ "" then some (pyStrip l) else none)

/-- `read_data` from `gpt2_tuning.py` (lines 12-74): file content plus a
declared type tag to the list of text samples (the `texts` list of the
returned `{"text": texts}`). -/
def read_data (file_content : String) (file_type : String) :
    Except PyErr (List String) :=
  if file_type = ".json" then
    match pyJsonLoads file_content with
    | some (.arr items) => processJsonItems items
    | some data => .ok [pyStr data]
    | none => .ok (nonEmptyStrippedLines file_content)
  else if file_type = ".csv" then
    .ok (if (pyLines file_content).length > 1 then
      ((pyLines file_content).drop 1).filterMap
        (fun l => if pyStrip l ≠ "" then some (pyStrip l) else none)
    else [])
  else if file_type = ".jsonl" then
    processJsonlLines (pyLines file_content)
  else
    .ok ((pyLines file_content).filterMap
      (fun l =>
        if pyStrip l ≠ "" ∧ (pyStrip l).length > 10 then some (pyStrip l)
        else none))

/-! ## The second `read_data`, from `create_gpt2_script`

`create_gpt2_script` in `server/main.py` (lines 184-283) writes a
generated `gpt2_tuning.py` whose `read_data` differs from the one above:
`.txt`/`.text` (and any unknown type) keep every nonempty stripped line
with no minimum length; `.json` returns the parsed list itself (its raw
elements), `[str(data)]` for a non-list, and `[file_content]` when
parsing fails.  Its outputs can be raw Python values, so the model
returns `List Json`, a Python `str` sample appearing as `Json.str`. -/

def script_read_data (file_content : String) (file_type : String) :
    List Json :=
  if file_type = ".txt" ∨ file_type = ".text" then
    (pyLines file_content).filterMap
      (fun l => if pyStrip l ≠ "" then some (.str (pyStrip l)) else none)
  else if file_type = ".json" then
    match pyJsonLoads file_content with
    | some (.arr es) => es
    | some data => [.str (pyStr data)]
    | none => [.str file_content]
  else
    (pyLines file_content).filterMap
      (fun l => if pyStrip l ≠ "" then some (.str (pyStrip l)) else none)

/-! ## The `/api/start-training` handler from `server/main.py`

Lines 603-700.  For each requested filename the handler looks the file up
in the user's S3 folder, downloads and decodes it, writes a temporary
file, runs `gpt2_tuning.py` on it, and appends a summary entry; a missing
S3 key or any exception raised while preparing the file skips that file
(`except Exception` around the loop body), while a subprocess failure or
timeout is caught separately and the entry is appended anyway.  The
S3/subprocess world is abstracted into an environment mapping each
filename to the outcome of its preparation. -/

/-- The `Hyperparameters` pydantic model of `server/main.py` (Python
floats modelled as rationals; the values are only passed through, never
computed with). -/
structure Hyperparameters where
  learning_rate : ℚ
  batch_size : ℤ
  epochs : ℤ
  optimizer : String
  weight_decay : ℚ
  max_sequence_length : ℤ
deriving DecidableEq, Repr

/-- The `TrainingRequest` pydantic model. -/
structure TrainingRequest where
  hyperparameters : Hyperparameters
  files : List String

/-- The `tuningInfo` dict appended per processed file. -/
structure TuningInfo where
  tuningScript : String
  fileName : String
  fileType : String
deriving DecidableEq, Repr

/-- One entry of the response's `files` list. -/
structure ProcessedFile where
  fileName : String
  tuningInfo : TuningInfo
deriving DecidableEq, Repr

/-- The `TrainingResponse` pydantic model. -/
structure TrainingResponse where
  message : String
  hyperparameters : Hyperparameters
  files : List ProcessedFile

/-- What the environment does for one requested file: `skipped` when the
S3 key is not found or any exception is raised while preparing the
content (the `except Exception` path, which `continue`s to the next
file); `processed` when the content was prepared and the GPT-2 script was
invoked (whose own failure is caught separately and still appends the
entry). -/
inductive FileOutcome where
  | skipped : FileOutcome
  | processed : FileOutcome

/-- Python `str.lower()` (ASCII model). -/
def lowerStr (s : String) : String :=
  String.mk (s.data.map Char.toLower)

/-- `pathlib.Path(filename).suffix`: the final extension of the last path
component, empty for a hidden file's leading dot or a trailing dot. -/
def pathSuffix (filename : String) : String :=
  let base := (filename.data.reverse.takeWhile (fun c => c ≠ '/')).reverse
  let revB := base.reverse
  let ext := revB.takeWhile (fun c => c ≠ '.')
  if ext.length + 1 < base.length ∧ ext ≠ [] then
    String.mk ('.' :: ext.reverse)
  else ""

/-- `Path(filename).suffix.lower()` as used by the handler. -/
def pathSuffixLower (filename : String) : String :=
  lowerStr (pathSuffix filename)

/-- The `/api/start-training` handler, `start_training` in
`server/main.py`. -/
def start_training (req : TrainingRequest) (env : String → FileOutcome) :
    TrainingResponse :=
  let processed := req.files.filterMap (fun fn =>
    match env fn with
    | .skipped => none
    | .processed =>
      some
        { fileName := fn,
          tuningInfo :=
            { tuningScript := "gpt2_tuning.py", fileName := fn,
              fileType := pathSuffixLower fn } })
  { message := "Training completed successfully",
    hyperparameters := req.hyperparameters,
    files := processed }

/-! ## `generate_job_name` from `server/sagemaker_training.py` -/

/-- Python `c.isalnum()` (ASCII model). -/
def pyIsAlnum (c : Char) : Bool :=
  c.isAlpha || c.isDigit

/-- Python `str.strip('-')`. -/
def stripHyphens (s : String) : String :=
  String.mk
    (((s.data.dropWhile (fun c => c = '-')).reverse.dropWhile
        (fun c => c = '-')).reverse)

/-- `generate_job_name` (lines 548-563 of `server/sagemaker_training.py`).
`timestamp` stands for `datetime.now().strftime("%Y%m%d%H%M%S")`, which
is always fourteen decimal digits. -/
def generate_job_name (user_id : String) (base_model : String)
    (timestamp : String) : String :=
  String.mk
    ((stripHyphens
        ("llm-tune-" ++ String.mk ((user_id.data.filter pyIsAlnum).take 8) ++
          "-" ++ String.mk (base_model.data.filter pyIsAlnum) ++ "-" ++
          timestamp)).data.take 63)

/-! ## Shape predicates and well-formedness

`NumShape` is the JSON number grammar
`-?(0|[1-9][0-9]*)(\.[0-9]+)?([eE][+-]?[0-9]+)?` as an explicit
decomposition; `JWf` is the invariant of values produced by
`pyJsonLoads`: number lexemes come from the grammar (or are one of the
`NaN`/`Infinity` extensions) and object keys are pairwise distinct. -/

/-- Integer part of the number grammar: `0`, or a nonzero digit followed
by digits. -/
def IntPartShape (ip : List Char) : Prop :=
  ip = ['0'] ∨
    (∃ c ds, ip = c :: ds ∧ c.isDigit = true ∧ c ≠ '0' ∧
      ∀ d ∈ ds, d.isDigit = true)

/-- Fraction part of the number grammar: absent, or `.` then digits. -/
def FracShape (fp : List Char) : Prop :=
  fp = [] ∨
    (∃ ds, fp = '.' :: ds ∧ ds ≠ [] ∧ ∀ d ∈ ds, d.isDigit = true)

/-- Exponent part of the number grammar: absent, or `e`/`E`, an optional
sign, then digits. -/
def ExpShape (ep : List Char) : Prop :=
  ep = [] ∨
    (∃ e sg ds, ep = e :: (sg ++ ds) ∧ (e = 'e' ∨ e = 'E') ∧
      (sg = [] ∨ sg = ['+'] ∨ sg = ['-']) ∧ ds ≠ [] ∧
      ∀ d ∈ ds, d.isDigit = true)

/-- The JSON number grammar. -/
def NumShape (cs : List Char) : Prop :=
  ∃ sign ip fp ep, cs = sign ++ (ip ++ (fp ++ ep)) ∧
    (sign = [] ∨ sign = ['-']) ∧ IntPartShape ip ∧ FracShape fp ∧
    ExpShape ep

/-- A number lexeme `pyJsonLoads` can produce. -/
def NumLitOk (lit : String) : Prop :=
  NumShape lit.data ∨ lit = "NaN" ∨ lit = "Infinity" ∨ lit = "-Infinity"

/-- Well-formedness of a value in the image of `pyJsonLoads`. -/
inductive JWf : Json → Prop where
  | null : JWf .null
  | bool (b : Bool) : JWf (.bool b)
  | num (lit : String) : NumLitOk lit → JWf (.num lit)
  | str (s : String) : JWf (.str s)
  | arr (es : List Json) : (∀ v ∈ es, JWf v) → JWf (.arr es)
  | obj (ms : List (String × Json)) : (∀ kv ∈ ms, JWf kv.2) →
      (ms.map Prod.fst).Nodup → JWf (.obj ms)

/-- The input after a printed number may not continue with a character
that would extend the lexeme. -/
def numBoundary (cs : List Char) : Prop :=
  ∀ c, cs.head? = some c →
    ¬(c.isDigit = true ∨ c = '.' ∨ c = 'e' ∨ c = 'E')

/-- The element round-trip property threaded through the printer
completeness proof: the printed form of a value, followed by any
continuation the number grammar cannot extend, is scanned back as that
value. -/
def RoundTrips (v : Json) : Prop :=
  ∀ (fuel : Nat) (rest : List Char), (dumpsList v).length < fuel →
    numBoundary rest → parseJF fuel 0 (dumpsList v ++ rest) = some (v, rest)

/-- An extracted field value that `text.strip()` accepts: absent, or a
string. -/
def extractionSafe (v : Option Json) : Prop :=
  ∀ j, v = some j → ∃ s, j = Json.str s

/-- A `.json` array element `read_data` survives: a non-dict, or a dict
whose extracted field value (if truthy) is a string. -/
def jsonItemSafe (item : Json) : Prop :=
  ∀ ms, item = Json.obj ms →
    extractionSafe (firstTruthyGet ms ["text", "content", "description"])

/-- A stripped `.jsonl` line `read_data` survives: unparseable, or a dict
whose extracted field value (if truthy) is a string. -/
def jsonlLineSafe (line : String) : Prop :=
  ∀ v, pyJsonLoads line = some v →
    ∃ ms, v = Json.obj ms ∧
      extractionSafe (firstTruthyGet ms ["text", "content"])

/-! ## Helper lemmas: stripping and lines -/

theorem dropWhile_head_not {α : Type} {p : α → Bool} :
    ∀ (l : List α) (c : α), (l.dropWhile p).head? = some c → p c = false := by
  intro l
  induction l with
  | nil => intro c h; simp [List.dropWhile_nil] at h
  | cons a t ih =>
    intro c h
    rw [List.dropWhile_cons] at h
    split at h
    · exact ih c h
    · rename_i hpa
      simp only [List.head?_cons, Option.some.injEq] at h
      subst h
      simpa using hpa

theorem dropWhile_eq_self_of_head {α : Type} {p : α → Bool} (l : List α)
    (h : ∀ c, l.head? = some c → p c = false) : l.dropWhile p = l := by
  cases l with
  | nil => rfl
  | cons a t =>
    rw [List.dropWhile_cons, if_neg]
    simp [h a rfl]

theorem getLast?_dropWhile {α : Type} {p : α → Bool} (l : List α) (c : α)
    (h : (l.dropWhile p).getLast? = some c) : l.getLast? = some c := by
  conv_lhs => rw [← List.takeWhile_append_dropWhile (p := p) (l := l)]
  rw [List.getLast?_append, h]
  rfl

theorem pyStripList_head (cs : List Char) (c : Char)
    (h : (pyStripList cs).head? = some c) : pyIsSpace c = false := by
  unfold pyStripList at h
  rw [List.head?_reverse] at h
  have h2 := getLast?_dropWhile _ _ h
  rw [List.getLast?_reverse] at h2
  exact dropWhile_head_not _ _ h2

theorem pyStripList_getLast (cs : List Char) (c : Char)
    (h : (pyStripList cs).getLast? = some c) : pyIsSpace c = false := by
  unfold pyStripList at h
  rw [List.getLast?_reverse] at h
  exact dropWhile_head_not _ _ h

theorem pyStripList_clean (cs : List Char)
    (hh : ∀ c, cs.head? = some c → pyIsSpace c = false)
    (hl : ∀ c, cs.getLast? = some c → pyIsSpace c = false) :
    pyStripList cs = cs := by
  unfold pyStripList
  rw [dropWhile_eq_self_of_head cs hh]
  rw [dropWhile_eq_self_of_head cs.reverse
    (fun c h => hl c (by rwa [List.head?_reverse] at h))]
  exact List.reverse_reverse cs

theorem pyStrip_idem (s : String) : pyStrip (pyStrip s) = pyStrip s := by
  unfold pyStrip
  congr 1
  exact pyStripList_clean _ (pyStripList_head s.data) (pyStripList_getLast s.data)

/-! ## Claim C2 -/

theorem txt_filter_eq (xs : List String) :
    xs.filterMap
      (fun l =>
        if pyStrip l ≠ "" ∧ (pyStrip l).length > 10 then some (pyStrip l)
        else none) =
    (xs.map pyStrip).filter (fun t => 10 < t.length) := by
  induction xs with
  | nil => rfl
  | cons x t ih =>
    rw [List.filterMap_cons, List.map_cons, List.filter_cons]
    by_cases h : 10 < (pyStrip x).length
    · have hne : pyStrip x ≠ "" := by
        intro he
        rw [he] at h
        simp at h
      rw [if_pos ⟨hne, h⟩, ih]
      simp [h]
    · rw [if_neg (fun hc => h hc.2), ih]
      simp [h]

/-- Claim C2: for `.txt` content (and any type tag other than `.json`,
`.csv` and `.jsonl`), a line contributes a sample iff its stripped form
is longer than ten characters; the sample is the stripped line, and the
samples keep the line order. -/
theorem c2_txt_threshold (content ft : String)
    (h1 : ft ≠ ".json") (h2 : ft ≠ ".csv") (h3 : ft ≠ ".jsonl") :
    read_data content ft =
      Except.ok (((pyLines content).map pyStrip).filter
        (fun t => 10 < t.length)) := by
  unfold read_data
  rw [if_neg h1, if_neg h2, if_neg h3, txt_filter_eq]

theorem c2_txt_threshold_witness :
    ((".txt" : String) ≠ ".json") ∧
    read_data "no\nthis line is long\n" ".txt" =
      Except.ok (((pyLines "no\nthis line is long\n").map pyStrip).filter
        (fun t => 10 < t.length)) :=
  ⟨by decide, c2_txt_threshold _ _ (by decide) (by decide) (by decide)⟩

/-! ## Claim C3 -/

theorem csv_filter_eq (xs : List String) :
    xs.filterMap
      (fun l => if pyStrip l ≠ "" then some (pyStrip l) else none) =
    (xs.map pyStrip).filter (fun t => t ≠ "") := by
  induction xs with
  | nil => rfl
  | cons x t ih =>
    rw [List.filterMap_cons, List.map_cons, List.filter_cons]
    by_cases h : pyStrip x = ""
    · rw [if_neg (fun hc => hc h), ih]
      simp [h]
    · rw [if_pos h, ih]
      simp [h]

/-- Claim C3: for `.csv` content the first line is always dropped and the
output is exactly the nonempty stripped remaining lines in order; in
particular `"a: b\nc: d\n\n"` yields `["c: d"]`. -/
theorem c3_csv_header :
    (∀ content, read_data content ".csv" =
      Except.ok ((((pyLines content).drop 1).map pyStrip).filter
        (fun t => t ≠ ""))) ∧
    read_data "a: b\nc: d\n\n" ".csv" = Except.ok ["c: d"] := by
  constructor
  · intro content
    unfold read_data
    rw [if_neg (by decide), if_pos rfl]
    by_cases h : (pyLines content).length > 1
    · rw [if_pos h, csv_filter_eq]
    · rw [if_neg h]
      have hd : (pyLines content).drop 1 = [] :=
        List.drop_eq_nil_of_le (by omega)
      rw [hd]
      rfl
  · decide

/-! ## Claim C8 -/

/-- Claim C8: the two copies of `read_data` disagree: on the `.txt`
content `"short"` the `gpt2_tuning.py` copy returns no sample (the line
is not longer than ten characters) while the copy generated by
`create_gpt2_script` keeps it. -/
theorem c8_copies_disagree :
    (read_data "short" ".txt").map (fun ts => ts.map Json.str) ≠
      Except.ok (script_read_data "short" ".txt") ∧
    read_data "short" ".txt" = Except.ok [] ∧
    script_read_data "short" ".txt" = [Json.str "short"] := by
  refine ⟨?_, by decide, rfl⟩
  intro h
  rw [show read_data "short" ".txt" = Except.ok [] from by decide,
    show script_read_data "short" ".txt" = [Json.str "short"] from rfl] at h
  simp [Except.map] at h

/-! ## Claim C9 -/

/-- Claim C9: the start-training response echoes the request's
hyperparameters unchanged, whatever the S3/subprocess environment does
with each file. -/
theorem c9_hyperparameters_echoed (req : TrainingRequest)
    (env : String → FileOutcome) :
    (start_training req env).hyperparameters = req.hyperparameters := rfl

/-! ## Claim C10 -/

theorem mem_of_getLast?_eq {α : Type} :
    ∀ (l : List α) (c : α), l.getLast? = some c → c ∈ l := by
  intro l
  induction l with
  | nil => intro c h; simp at h
  | cons a t ih =>
    intro c h
    cases t with
    | nil => simp at h; simp [h]
    | cons b t2 =>
      rw [List.getLast?_cons_cons] at h
      exact List.mem_cons_of_mem a (ih c h)

theorem stripHyphens_eq_self (s : String)
    (hh : ∀ c, s.data.head? = some c → c ≠ '-')
    (hl : ∀ c, s.data.getLast? = some c → c ≠ '-') : stripHyphens s = s := by
  unfold stripHyphens
  rw [dropWhile_eq_self_of_head s.data (fun c h => by simp [hh c h])]
  rw [dropWhile_eq_self_of_head s.data.reverse
    (fun c h => by simp [hl c (by rwa [List.head?_reverse] at h)])]
  rw [List.reverse_reverse]

/-- Claim C10 counterexample: with an empty user id, a 52-character
alphanumeric base model and a well-formed timestamp, the generated job
name is truncated right after a hyphen, so it ends with `-`, which the
claim forbids. -/
theorem c10_counterexample :
    (generate_job_name ""
        "aaaaaaaaaaaaaaaaaaaaaaaaaaaaaaaaaaaaaaaaaaaaaaaaaaaa"
        "20250101000000").data.getLast? = some '-' ∧
    (generate_job_name ""
        "aaaaaaaaaaaaaaaaaaaaaaaaaaaaaaaaaaaaaaaaaaaaaaaaaaaa"
        "20250101000000").length = 63 := by
  constructor
  · rfl
  · rfl

/-- Claim C10 (amended): for any user id and base model, and any
nonempty all-digit timestamp, the job name has at most 63 characters,
consists of alphanumeric characters and hyphens only, starts with
`llm-tune-` (so not with a hyphen) — but it can end with a hyphen when
the 63-character truncation cuts right after one. -/
theorem c10_amended (uid bm ts : String) (h1 : ts.data ≠ [])
    (h2 : ∀ c ∈ ts.data, c.isDigit = true) :
    (generate_job_name uid bm ts).length ≤ 63 ∧
    (∀ c ∈ (generate_job_name uid bm ts).data, pyIsAlnum c = true ∨ c = '-') ∧
    (generate_job_name uid bm ts).data.take 9 = "llm-tune-".data ∧
    (generate_job_name uid bm ts).data.head? = some 'l' := by
  have hfull :
      ("llm-tune-" ++ String.mk ((uid.data.filter pyIsAlnum).take 8) ++ "-" ++
        String.mk (bm.data.filter pyIsAlnum) ++ "-" ++ ts).data =
      "llm-tune-".data ++ ((uid.data.filter pyIsAlnum).take 8 ++
        (['-'] ++ (bm.data.filter pyIsAlnum ++ (['-'] ++ ts.data)))) := by
    simp [String.data_append]
  have hmem : ∀ c ∈ "llm-tune-".data ++ ((uid.data.filter pyIsAlnum).take 8 ++
      (['-'] ++ (bm.data.filter pyIsAlnum ++ (['-'] ++ ts.data)))),
      pyIsAlnum c = true ∨ c = '-' := by
    intro c hc
    rw [List.mem_append] at hc
    rcases hc with hc | hc
    · exact (by decide :
        ∀ x ∈ "llm-tune-".data, pyIsAlnum x = true ∨ x = '-') c hc
    rw [List.mem_append] at hc
    rcases hc with hc | hc
    · exact Or.inl (List.mem_filter.mp (List.take_subset _ _ hc)).2
    rw [List.mem_append] at hc
    rcases hc with hc | hc
    · simp at hc
      exact Or.inr hc
    rw [List.mem_append] at hc
    rcases hc with hc | hc
    · exact Or.inl (List.mem_filter.mp hc).2
    rw [List.mem_append] at hc
    rcases hc with hc | hc
    · simp at hc
      exact Or.inr hc
    · refine Or.inl ?_
      have := h2 c hc
      simp [pyIsAlnum, this]
  have hstrip : stripHyphens
      ("llm-tune-" ++ String.mk ((uid.data.filter pyIsAlnum).take 8) ++ "-" ++
        String.mk (bm.data.filter pyIsAlnum) ++ "-" ++ ts) =
      "llm-tune-" ++ String.mk ((uid.data.filter pyIsAlnum).take 8) ++ "-" ++
        String.mk (bm.data.filter pyIsAlnum) ++ "-" ++ ts := by
    apply stripHyphens_eq_self
    · intro c h
      rw [hfull] at h
      simp at h
      subst h
      decide
    · intro c h
      rw [hfull] at h
      rw [List.getLast?_append, List.getLast?_append, List.getLast?_append,
        List.getLast?_append, List.getLast?_append] at h
      cases hts : ts.data.getLast? with
      | none => exact absurd (List.getLast?_eq_none_iff.mp hts) h1
      | some d =>
        rw [hts] at h
        simp [Option.or] at h
        subst h
        have hd := h2 d (mem_of_getLast?_eq _ _ hts)
        intro he
        rw [he] at hd
        simp at hd
  unfold generate_job_name
  rw [hstrip]
  refine ⟨?_, ?_, ?_, ?_⟩
  · show (List.take 63 _).length ≤ 63
    rw [List.length_take]
    omega
  · intro c hc
    exact hmem c (by rw [← hfull]; exact List.take_subset _ _ hc)
  · show List.take 9 (List.take 63 _) = _
    rw [List.take_take]
    rw [show (9 : Nat) ⊓ 63 = 9 from rfl]
    rw [hfull]
    rw [show (9 : Nat) = "llm-tune-".data.length from rfl, List.take_left]
  · rw [hfull]
    rfl

theorem c10_amended_witness :
    (generate_job_name "user99" "gpt2" "20250101120000").length ≤ 63 ∧
    (∀ c ∈ (generate_job_name "user99" "gpt2" "20250101120000").data,
      pyIsAlnum c = true ∨ c = '-') ∧
    (generate_job_name "user99" "gpt2" "20250101120000").data.take 9 =
      "llm-tune-".data ∧
    (generate_job_name "user99" "gpt2" "20250101120000").data.head? =
      some 'l' :=
  c10_amended "user99" "gpt2" "20250101120000" (by decide) (by decide)

/-! ## Counterexamples for claims C1, C4, C5 and C6 -/

/-- Claim C1 counterexample: in `'[\x7b"text":"","content":"world"\x7d]'`
the first element has a `text` field (present, with value `""`), so the
claim predicts the sample `""`; the code takes the first *truthy* field
and returns `["world"]`. -/
theorem c1_counterexample :
    pyJsonLoads "[\x7b\"text\":\"\",\"content\":\"world\"\x7d]" =
      some (Json.arr
        [Json.obj [("text", Json.str ""), ("content", Json.str "world")]]) ∧
    pyDictGet [("text", Json.str ""), ("content", Json.str "world")] "text" =
      some (Json.str "") ∧
    read_data "[\x7b\"text\":\"\",\"content\":\"world\"\x7d]" ".json" =
      Except.ok ["world"] ∧
    ("world" : String) ≠ "" :=
  ⟨rfl, rfl, by decide, by decide⟩

/-- Claim C4 counterexample: the `.jsonl` line
`'\x7b"text":"","content":"x"\x7d'` parses to an object with a `text`
field, so the claim predicts that field's value `""` in preference to
`content`; the code yields `["x"]`. -/
theorem c4_counterexample :
    pyJsonLoads "\x7b\"text\":\"\",\"content\":\"x\"\x7d" =
      some (Json.obj [("text", Json.str ""), ("content", Json.str "x")]) ∧
    read_data "\x7b\"text\":\"\",\"content\":\"x\"\x7d" ".jsonl" =
      Except.ok ["x"] ∧
    ("x" : String) ≠ "" :=
  ⟨rfl, by decide, by decide⟩

/-- Claim C5 counterexample: `'["a"]'` is valid UTF-8 text and valid
JSON, yet `read_data` with type `.jsonl` raises `AttributeError`
(`data.get` on a parsed list), so the function does not return normally
for every input. -/
theorem c5_counterexample :
    read_data "[\"a\"]" ".jsonl" =
      Except.error (PyErr.attributeError "get") := by decide

/-- Claim C6 counterexample: `.json` content `'""'` (a JSON document
whose root is the empty string) produces the sample `""`, which is empty
after trimming. -/
theorem c6_counterexample :
    read_data "\"\"" ".json" = Except.ok [""] ∧ pyStrip "" = "" :=
  ⟨by decide, by decide⟩

/-! ## Printed objects are clean: nonempty, no surrounding whitespace -/

theorem dumpsList_obj_head (ms : List (String × Json)) :
    (dumpsList (Json.obj ms)).head? = some '{' := by
  cases ms with
  | nil => simp [dumpsList]
  | cons m ms2 => simp [dumpsList]

theorem dumpsList_obj_getLast (ms : List (String × Json)) :
    (dumpsList (Json.obj ms)).getLast? = some '}' := by
  cases ms with
  | nil => simp [dumpsList]
  | cons m ms2 =>
    show (('{' :: (dumpsMember m ++ (dumpsObjTail ms2 ++ ['}']))).getLast? =
      some '}')
    rw [show ('{' :: (dumpsMember m ++ (dumpsObjTail ms2 ++ ['}']))) =
      (('{' :: dumpsMember m) ++ (dumpsObjTail ms2 ++ ['}'])) from rfl]
    rw [List.getLast?_append, List.getLast?_concat]
    rfl

theorem pyJsonDumps_obj_ne (ms : List (String × Json)) :
    pyJsonDumps (Json.obj ms) ≠ "" := by
  intro h
  have h2 : (pyJsonDumps (Json.obj ms)).data = [] := by rw [h]
  have h3 := dumpsList_obj_head ms
  rw [show (pyJsonDumps (Json.obj ms)).data = dumpsList (Json.obj ms) from rfl]
    at h2
  rw [h2] at h3
  simp at h3

theorem pyStrip_dumps_obj (ms : List (String × Json)) :
    pyStrip (pyJsonDumps (Json.obj ms)) = pyJsonDumps (Json.obj ms) := by
  unfold pyStrip
  rw [show (pyJsonDumps (Json.obj ms)).data = dumpsList (Json.obj ms) from rfl]
  rw [pyStripList_clean]
  · rfl
  · intro c h
    rw [dumpsList_obj_head ms] at h
    cases h
    decide
  · intro c h
    rw [dumpsList_obj_getLast ms] at h
    cases h
    decide

/-! ## Claim C4 -/

/-- Claim C4 (amended): for `.jsonl`, each nonempty stripped line is
handled independently; a line that fails to parse is kept as its raw
stripped text and does not abort the remaining lines; a line parsing to
an object with a *truthy* `text` field takes that field (stripped,
dropped when blank) in preference to `content`; an object with neither
field yields its `json.dumps` re-serialization. -/
theorem c4_amended :
    (∀ content, read_data content ".jsonl" =
      processJsonlLines (pyLines content)) ∧
    (∀ raw rest, pyStrip raw ≠ "" → pyJsonLoads (pyStrip raw) = none →
      processJsonlLines (raw :: rest) =
        (processJsonlLines rest).map (fun ts => pyStrip raw :: ts)) ∧
    (∀ line ms s, pyJsonLoads line = some (Json.obj ms) →
      pyDictGet ms "text" = some (Json.str s) → s ≠ "" →
      jsonlLineSample line =
        Except.ok (if pyStrip s ≠ "" then some (pyStrip s) else none)) ∧
    (∀ line ms, pyJsonLoads line = some (Json.obj ms) →
      pyDictGet ms "text" = none → pyDictGet ms "content" = none →
      jsonlLineSample line = Except.ok (some (pyJsonDumps (Json.obj ms)))) := by
  refine ⟨?_, ?_, ?_, ?_⟩
  · intro content
    unfold read_data
    rw [if_neg (by decide), if_neg (by decide), if_pos rfl]
  · intro raw rest h1 h2
    rw [processJsonlLines, if_neg h1]
    rw [show jsonlLineSample (pyStrip raw) = Except.ok (some (pyStrip raw)) from
      by rw [jsonlLineSample, h2]]
    cases processJsonlLines rest with
    | error e => rfl
    | ok ts => rfl
  · intro line ms s h1 h2 h3
    have htr : pyTruthy (Json.str s) = true := by simp [pyTruthy, h3]
    simp only [jsonlLineSample, h1, firstTruthyGet, h2, htr, if_true]
    rw [if_congr (Iff.intro (fun h => h.2) (fun h => ⟨h3, h⟩)) rfl rfl]
  · intro line ms h1 h2 h3
    simp only [jsonlLineSample, h1, firstTruthyGet, h2, h3]
    rw [if_pos ⟨pyJsonDumps_obj_ne ms, by
      rw [pyStrip_dumps_obj]; exact pyJsonDumps_obj_ne ms⟩]
    rw [pyStrip_dumps_obj]

theorem c4_amended_witness :
    processJsonlLines ["oops \x7b", ""] =
      (processJsonlLines [""]).map (fun ts => pyStrip "oops \x7b" :: ts) :=
  c4_amended.2.1 "oops \x7b" [""] (by decide) rfl

/-! ## Claim C5 -/

theorem jsonlLineSample_safe (line : String) (h : jsonlLineSafe line) :
    ∃ o, jsonlLineSample line = Except.ok o := by
  rw [jsonlLineSample]
  cases hl : pyJsonLoads line with
  | none => exact ⟨some line, rfl⟩
  | some v =>
    obtain ⟨ms, hv, hex⟩ := h v hl
    subst hv
    cases hg : firstTruthyGet ms ["text", "content"] with
    | none => simp only [hl, hg]; exact ⟨_, rfl⟩
    | some j =>
      obtain ⟨s, hj⟩ := hex j hg
      subst hj
      simp only [hl, hg]
      exact ⟨_, rfl⟩

theorem jsonItemSample_safe (item : Json) (h : jsonItemSafe item) :
    ∃ o, jsonItemSample item = Except.ok o := by
  cases item with
  | obj ms =>
    rw [jsonItemSample]
    cases hg : firstTruthyGet ms ["text", "content", "description"] with
    | none => exact ⟨_, rfl⟩
    | some j =>
      obtain ⟨s, hj⟩ := h ms rfl j hg
      subst hj
      exact ⟨_, rfl⟩
  | null => exact ⟨_, rfl⟩
  | bool b => exact ⟨_, rfl⟩
  | num lit => exact ⟨_, rfl⟩
  | str s => exact ⟨_, rfl⟩
  | arr es => exact ⟨_, rfl⟩

theorem processJsonlLines_safe :
    ∀ (lines : List String),
      (∀ l ∈ lines, jsonlLineSafe (pyStrip l)) →
      ∃ ts, processJsonlLines lines = Except.ok ts := by
  intro lines
  induction lines with
  | nil => intro _; exact ⟨[], rfl⟩
  | cons raw rest ih =>
    intro h
    obtain ⟨ts, hts⟩ := ih (fun l hl => h l (List.mem_cons_of_mem _ hl))
    rw [processJsonlLines]
    by_cases h0 : pyStrip raw = ""
    · rw [if_pos h0, hts]
      exact ⟨ts, rfl⟩
    rw [if_neg h0]
    obtain ⟨o, ho⟩ := jsonlLineSample_safe _ (h raw (List.mem_cons_self _ _))
    simp only [ho]
    cases o with
    | none => exact ⟨ts, hts⟩
    | some s => simp only [hts]; exact ⟨_, rfl⟩

theorem processJsonItems_safe :
    ∀ (items : List Json),
      (∀ it ∈ items, jsonItemSafe it) →
      ∃ ts, processJsonItems items = Except.ok ts := by
  intro items
  induction items with
  | nil => intro _; exact ⟨[], rfl⟩
  | cons item rest ih =>
    intro h
    obtain ⟨ts, hts⟩ := ih (fun it hit => h it (List.mem_cons_of_mem _ hit))
    rw [processJsonItems]
    obtain ⟨o, ho⟩ := jsonItemSample_safe _ (h item (List.mem_cons_self _ _))
    simp only [ho]
    cases o with
    | none => exact ⟨ts, hts⟩
    | some s => simp only [hts]; exact ⟨_, rfl⟩

/-- Claim C5 (amended): `read_data` always returns normally for `.csv`,
`.txt` and unknown type tags, and a JSON parse failure is recovered
locally (for `.json` by the line-splitting fallback, for `.jsonl` by
keeping the raw line, covered by C4); but for `.json`/`.jsonl` an
`AttributeError` escapes when a successfully parsed `.jsonl` line (or
`.json` array element) is not an object, or when an extracted truthy
field value is not a string — under the corresponding safety conditions
the call returns normally. -/
theorem c5_amended :
    (∀ content ft, ft ≠ ".json" → ft ≠ ".jsonl" →
      ∃ ts, read_data content ft = Except.ok ts) ∧
    (∀ content, pyJsonLoads content = none →
      read_data content ".json" =
        Except.ok (nonEmptyStrippedLines content)) ∧
    (∀ content, (∀ l ∈ pyLines content, jsonlLineSafe (pyStrip l)) →
      ∃ ts, read_data content ".jsonl" = Except.ok ts) ∧
    (∀ content items, pyJsonLoads content = some (Json.arr items) →
      (∀ it ∈ items, jsonItemSafe it) →
      ∃ ts, read_data content ".json" = Except.ok ts) := by
  refine ⟨?_, ?_, ?_, ?_⟩
  · intro content ft h1 h2
    unfold read_data
    rw [if_neg h1]
    by_cases hc : ft = ".csv"
    · rw [if_pos hc]
      exact ⟨_, rfl⟩
    · rw [if_neg hc, if_neg h2]
      exact ⟨_, rfl⟩
  · intro content h
    unfold read_data
    rw [if_pos rfl, h]
  · intro content h
    unfold read_data
    rw [if_neg (by decide), if_neg (by decide), if_pos rfl]
    exact processJsonlLines_safe _ h
  · intro content items h1 h2
    unfold read_data
    rw [if_pos rfl, h1]
    exact processJsonItems_safe _ h2

theorem c5_amended_witness :
    ∃ ts, read_data "anything at all" ".csv" = Except.ok ts :=
  c5_amended.1 "anything at all" ".csv" (by decide) (by decide)

/-! ## Claim C6 -/

theorem mem_strip_filterMap (xs : List String) (s : String)
    (h : s ∈ xs.filterMap
      (fun l => if pyStrip l ≠ "" then some (pyStrip l) else none)) :
    pyStrip s ≠ "" := by
  rcases List.mem_filterMap.mp h with ⟨a, _, hfa⟩
  by_cases hc : pyStrip a = ""
  · rw [if_neg (fun hx => hx hc)] at hfa
    cases hfa
  · rw [if_pos hc] at hfa
    cases hfa
    rw [pyStrip_idem]
    exact hc

theorem mem_strip10_filterMap (xs : List String) (s : String)
    (h : s ∈ xs.filterMap
      (fun l =>
        if pyStrip l ≠ "" ∧ (pyStrip l).length > 10 then some (pyStrip l)
        else none)) :
    pyStrip s ≠ "" := by
  rcases List.mem_filterMap.mp h with ⟨a, _, hfa⟩
  by_cases hc : pyStrip a ≠ "" ∧ (pyStrip a).length > 10
  · rw [if_pos hc] at hfa
    cases hfa
    rw [pyStrip_idem]
    exact hc.1
  · rw [if_neg hc] at hfa
    cases hfa

theorem jsonlLineSample_some_stripped (raw s0 : String)
    (hline : jsonlLineSample (pyStrip raw) = Except.ok (some s0))
    (h0 : pyStrip raw ≠ "") : pyStrip s0 ≠ "" := by
  rw [jsonlLineSample] at hline
  cases hl : pyJsonLoads (pyStrip raw) with
  | none =>
    simp only [hl] at hline
    cases Except.ok.inj hline
    rwa [pyStrip_idem]
  | some v =>
    cases v with
    | obj ms =>
      simp only [hl] at hline
      cases hg : firstTruthyGet ms ["text", "content"] with
      | none =>
        simp only [hg] at hline
        split at hline
        · rename_i hcond
          cases Except.ok.inj hline
          rw [pyStrip_idem]
          exact hcond.2
        · cases Except.ok.inj hline
      | some j =>
        cases j with
        | str s1 =>
          simp only [hg] at hline
          split at hline
          · rename_i hcond
            cases Except.ok.inj hline
            rw [pyStrip_idem]
            exact hcond.2
          · cases Except.ok.inj hline
        | null => simp only [hg] at hline; exact Except.noConfusion hline
        | bool b => simp only [hg] at hline; exact Except.noConfusion hline
        | num lit => simp only [hg] at hline; exact Except.noConfusion hline
        | arr es => simp only [hg] at hline; exact Except.noConfusion hline
        | obj ms2 => simp only [hg] at hline; exact Except.noConfusion hline
    | null => simp only [hl] at hline; exact Except.noConfusion hline
    | bool b => simp only [hl] at hline; exact Except.noConfusion hline
    | num lit => simp only [hl] at hline; exact Except.noConfusion hline
    | str s => simp only [hl] at hline; exact Except.noConfusion hline
    | arr es => simp only [hl] at hline; exact Except.noConfusion hline

theorem processJsonlLines_stripped :
    ∀ (lines : List String) (ts : List String),
      processJsonlLines lines = Except.ok ts →
      ∀ s ∈ ts, pyStrip s ≠ "" := by
  intro lines
  induction lines with
  | nil =>
    intro ts h s hs
    cases Except.ok.inj h
    cases hs
  | cons raw rest ih =>
    intro ts h s hs
    rw [processJsonlLines] at h
    by_cases h0 : pyStrip raw = ""
    · rw [if_pos h0] at h
      exact ih ts h s hs
    rw [if_neg h0] at h
    cases hsamp : jsonlLineSample (pyStrip raw) with
    | error e =>
      rw [hsamp] at h
      cases h
    | ok o =>
      rw [hsamp] at h
      cases o with
      | none => exact ih ts h s hs
      | some s0 =>
        cases hrest : processJsonlLines rest with
        | error e =>
          rw [hrest] at h
          cases h
        | ok ts2 =>
          rw [hrest] at h
          cases Except.ok.inj h
          rcases List.mem_cons.mp hs with hs | hs
          · subst hs
            exact jsonlLineSample_some_stripped raw s hsamp h0
          · exact ih ts2 hrest s hs

theorem jsonItemSample_some_stripped (item : Json) (ms : List (String × Json))
    (hobj : item = Json.obj ms) (s0 : String)
    (hline : jsonItemSample item = Except.ok (some s0)) :
    pyStrip s0 ≠ "" := by
  subst hobj
  rw [jsonItemSample] at hline
  cases hg : firstTruthyGet ms ["text", "content", "description"] with
  | none =>
    simp only [hg] at hline
    split at hline
    · rename_i hcond
      cases Except.ok.inj hline
      rw [pyStrip_idem]
      exact hcond.2
    · cases Except.ok.inj hline
  | some j =>
    cases j with
    | str s1 =>
      simp only [hg] at hline
      split at hline
      · rename_i hcond
        cases Except.ok.inj hline
        rw [pyStrip_idem]
        exact hcond.2
      · cases Except.ok.inj hline
    | null => simp only [hg] at hline; exact Except.noConfusion hline
    | bool b => simp only [hg] at hline; exact Except.noConfusion hline
    | num lit => simp only [hg] at hline; exact Except.noConfusion hline
    | arr es => simp only [hg] at hline; exact Except.noConfusion hline
    | obj ms2 => simp only [hg] at hline; exact Except.noConfusion hline

theorem processJsonItems_stripped :
    ∀ (items : List Json) (ts : List String),
      (∀ it ∈ items, ∃ ms, it = Json.obj ms) →
      processJsonItems items = Except.ok ts →
      ∀ s ∈ ts, pyStrip s ≠ "" := by
  intro items
  induction items with
  | nil =>
    intro ts _ h s hs
    cases Except.ok.inj h
    cases hs
  | cons item rest ih =>
    intro ts hdicts h s hs
    rw [processJsonItems] at h
    cases hsamp : jsonItemSample item with
    | error e =>
      rw [hsamp] at h
      cases h
    | ok o =>
      rw [hsamp] at h
      cases o with
      | none =>
        exact ih ts (fun it hit => hdicts it (List.mem_cons_of_mem _ hit)) h s hs
      | some s0 =>
        cases hrest : processJsonItems rest with
        | error e =>
          rw [hrest] at h
          cases h
        | ok ts2 =>
          rw [hrest] at h
          cases Except.ok.inj h
          rcases List.mem_cons.mp hs with hs | hs
          · subst hs
            obtain ⟨ms, hms⟩ := hdicts item (List.mem_cons_self _ _)
            exact jsonItemSample_some_stripped item ms hms s hsamp
          · exact ih ts2
              (fun it hit => hdicts it (List.mem_cons_of_mem _ hit)) hrest s hs

/-- Claim C6 (amended): every sample is nonempty after stripping for
`.csv`, `.jsonl`, `.txt` and unknown type tags, for the `.json`
parse-failure fallback, and for `.json` arrays whose elements are all
objects; it fails only for `.json` samples produced by `str()` of a
non-object root or non-object array element (see the counterexample). -/
theorem c6_amended :
    (∀ content ft ts s, ft ≠ ".json" → read_data content ft = Except.ok ts →
      s ∈ ts → pyStrip s ≠ "") ∧
    (∀ content ts s, pyJsonLoads content = none →
      read_data content ".json" = Except.ok ts → s ∈ ts → pyStrip s ≠ "") ∧
    (∀ content items ts s, pyJsonLoads content = some (Json.arr items) →
      (∀ it ∈ items, ∃ ms, it = Json.obj ms) →
      read_data content ".json" = Except.ok ts → s ∈ ts →
      pyStrip s ≠ "") := by
  refine ⟨?_, ?_, ?_⟩
  · intro content ft ts s h1 h2 hs
    unfold read_data at h2
    rw [if_neg h1] at h2
    by_cases hc : ft = ".csv"
    · rw [if_pos hc] at h2
      cases Except.ok.inj h2
      split at hs
      · exact mem_strip_filterMap _ s hs
      · cases hs
    rw [if_neg hc] at h2
    by_cases hj : ft = ".jsonl"
    · rw [if_pos hj] at h2
      exact processJsonlLines_stripped _ ts h2 s hs
    · rw [if_neg hj] at h2
      cases Except.ok.inj h2
      exact mem_strip10_filterMap _ s hs
  · intro content ts s h1 h2 hs
    unfold read_data at h2
    rw [if_pos rfl, h1] at h2
    cases Except.ok.inj h2
    exact mem_strip_filterMap _ s hs
  · intro content items ts s h1 hdicts h2 hs
    unfold read_data at h2
    rw [if_pos rfl, h1] at h2
    exact processJsonItems_stripped items ts hdicts h2 s hs

theorem c6_amended_witness :
    ((".csv" : String) ≠ ".json") ∧ pyStrip "hello" ≠ "" :=
  ⟨by decide,
    c6_amended.1 "x\n hello " ".csv" ["hello"] "hello" (by decide) (by decide)
      (by decide)⟩

/-! ## Claim C1 -/

theorem firstTruthyGet_hit (ms : List (String × Json)) (k : String)
    (ks : List String) (j : Json) (hg : pyDictGet ms k = some j)
    (ht : pyTruthy j = true) : firstTruthyGet ms (k :: ks) = some j := by
  rw [firstTruthyGet]
  simp [hg, ht]

theorem firstTruthyGet_skip (ms : List (String × Json)) (k : String)
    (ks : List String)
    (h : ∀ j, pyDictGet ms k = some j → pyTruthy j = false) :
    firstTruthyGet ms (k :: ks) = firstTruthyGet ms ks := by
  rw [firstTruthyGet]
  cases hg : pyDictGet ms k with
  | none => rfl
  | some j => simp [h j hg]

/-- Claim C1 (amended): for a `.json` array, each element is processed
independently; a mapping element contributes the *stripped* value of the
first of `text`, `content`, `description` whose value is present *and
truthy* (dropped when blank after stripping), falling back to the JSON
re-serialization of the element when none is; a non-mapping element
contributes `str(element)`.  The spec's example holds as stated. -/
theorem c1_amended :
    (∀ content items, pyJsonLoads content = some (Json.arr items) →
      read_data content ".json" = processJsonItems items) ∧
    (∀ ms s, pyDictGet ms "text" = some (Json.str s) → s ≠ "" →
      jsonItemSample (Json.obj ms) =
        Except.ok (if pyStrip s ≠ "" then some (pyStrip s) else none)) ∧
    (∀ ms s, (∀ j, pyDictGet ms "text" = some j → pyTruthy j = false) →
      pyDictGet ms "content" = some (Json.str s) → s ≠ "" →
      jsonItemSample (Json.obj ms) =
        Except.ok (if pyStrip s ≠ "" then some (pyStrip s) else none)) ∧
    (∀ ms s, (∀ j, pyDictGet ms "text" = some j → pyTruthy j = false) →
      (∀ j, pyDictGet ms "content" = some j → pyTruthy j = false) →
      pyDictGet ms "description" = some (Json.str s) → s ≠ "" →
      jsonItemSample (Json.obj ms) =
        Except.ok (if pyStrip s ≠ "" then some (pyStrip s) else none)) ∧
    (∀ ms, (∀ j, pyDictGet ms "text" = some j → pyTruthy j = false) →
      (∀ j, pyDictGet ms "content" = some j → pyTruthy j = false) →
      (∀ j, pyDictGet ms "description" = some j → pyTruthy j = false) →
      jsonItemSample (Json.obj ms) =
        Except.ok (some (pyJsonDumps (Json.obj ms)))) ∧
    (∀ item, (∀ ms, item ≠ Json.obj ms) →
      jsonItemSample item = Except.ok (some (pyStr item))) ∧
    read_data "[\x7b\"text\":\"hello\"\x7d,\x7b\"content\":\"world\"\x7d,\"plain\"]"
        ".json" =
      Except.ok ["hello", "world", "plain"] := by
  refine ⟨?_, ?_, ?_, ?_, ?_, ?_, by decide⟩
  · intro content items h
    unfold read_data
    rw [if_pos rfl, h]
  · intro ms s hg hs
    have hfirst : firstTruthyGet ms ["text", "content", "description"] =
        some (Json.str s) :=
      firstTruthyGet_hit ms "text" _ _ hg (by simp [pyTruthy, hs])
    simp only [jsonItemSample, hfirst]
    rw [if_congr (Iff.intro (fun h => h.2) (fun h => ⟨hs, h⟩)) rfl rfl]
  · intro ms s htext hg hs
    have hfirst : firstTruthyGet ms ["text", "content", "description"] =
        some (Json.str s) := by
      rw [firstTruthyGet_skip ms "text" _ htext]
      exact firstTruthyGet_hit ms "content" _ _ hg (by simp [pyTruthy, hs])
    simp only [jsonItemSample, hfirst]
    rw [if_congr (Iff.intro (fun h => h.2) (fun h => ⟨hs, h⟩)) rfl rfl]
  · intro ms s htext hcontent hg hs
    have hfirst : firstTruthyGet ms ["text", "content", "description"] =
        some (Json.str s) := by
      rw [firstTruthyGet_skip ms "text" _ htext,
        firstTruthyGet_skip ms "content" _ hcontent]
      exact firstTruthyGet_hit ms "description" _ _ hg (by simp [pyTruthy, hs])
    simp only [jsonItemSample, hfirst]
    rw [if_congr (Iff.intro (fun h => h.2) (fun h => ⟨hs, h⟩)) rfl rfl]
  · intro ms htext hcontent hdescr
    have hfirst : firstTruthyGet ms ["text", "content", "description"] =
        none := by
      rw [firstTruthyGet_skip ms "text" _ htext,
        firstTruthyGet_skip ms "content" _ hcontent,
        firstTruthyGet_skip ms "description" _ hdescr, firstTruthyGet]
    simp only [jsonItemSample, hfirst]
    rw [if_pos ⟨pyJsonDumps_obj_ne ms, by
      rw [pyStrip_dumps_obj]; exact pyJsonDumps_obj_ne ms⟩]
    rw [pyStrip_dumps_obj]
  · intro item h
    cases item with
    | obj ms => exact absurd rfl (h ms)
    | null => rfl
    | bool b => rfl
    | num lit => rfl
    | str s => rfl
    | arr es => rfl

theorem c1_amended_witness :
    jsonItemSample (Json.obj [("text", Json.str "hi")]) =
      Except.ok (if pyStrip "hi" ≠ "" then some (pyStrip "hi") else none) :=
  c1_amended.2.1 [("text", Json.str "hi")] "hi" rfl (by decide)

/-! ## Claim C7: helper lemmas on characters and hexadecimal escapes -/

theorem digit_eq_cases (c : Char) (h : c.isDigit = true) :
    c = '0' ∨ c = '1' ∨ c = '2' ∨ c = '3' ∨ c = '4' ∨ c = '5' ∨ c = '6' ∨
      c = '7' ∨ c = '8' ∨ c = '9' := by
  have h1 : 48 ≤ c.toNat ∧ c.toNat ≤ 57 := by
    simp [Char.isDigit] at h
    exact ⟨h.1, h.2⟩
  have h2 := Char.ofNat_toNat c
  obtain ⟨hl, hr⟩ := h1
  set n := c.toNat with hn
  interval_cases n <;> (rw [← h2]; decide)

theorem char_toNat_valid (c : Char) :
    c.toNat < 0xd800 ∨ (0xdfff < c.toNat ∧ c.toNat < 0x110000) := by
  have h := c.valid
  cases h with
  | inl h => exact Or.inl h
  | inr h => exact Or.inr ⟨h.1, h.2⟩

theorem char_eq_toNat (c d : Char) (h : c.toNat = d.toNat) : c = d := by
  apply Char.eq_of_val_eq
  apply UInt32.eq_of_toBitVec_eq
  apply BitVec.eq_of_toNat_eq
  exact h

theorem hexVal_hexDigitChar : ∀ d : Nat, d < 16 →
    hexVal (hexDigitChar d) = some d := by decide

theorem hex4_toHex4 (n : Nat) (h : n < 0x10000) :
    hex4 (hexDigitChar (n / 4096 % 16)) (hexDigitChar (n / 256 % 16))
      (hexDigitChar (n / 16 % 16)) (hexDigitChar (n % 16)) = some n := by
  rw [hex4]
  rw [hexVal_hexDigitChar _ (Nat.mod_lt _ (by omega)),
    hexVal_hexDigitChar _ (Nat.mod_lt _ (by omega)),
    hexVal_hexDigitChar _ (Nat.mod_lt _ (by omega)),
    hexVal_hexDigitChar _ (Nat.mod_lt _ (by omega))]
  have e1 : n / 256 = n / 16 / 16 := by
    rw [Nat.div_div_eq_div_mul]
  have e2 : n / 4096 = n / 16 / 16 / 16 := by
    rw [Nat.div_div_eq_div_mul, Nat.div_div_eq_div_mul]
  rw [e1, e2]
  have hd : n / 16 / 16 / 16 % 16 = n / 16 / 16 / 16 :=
    Nat.mod_eq_of_lt (by omega)
  rw [hd]
  show some (4096 * (n / 16 / 16 / 16) + 256 * (n / 16 / 16 % 16) +
    16 * (n / 16 % 16) + n % 16) = some n
  refine congrArg some ?_
  omega

/-! ## Claim C7: the string scanner reads back what `escChar` writes -/

theorem parseStrF_step_quote (f : Nat) (rest : List Char) :
    parseStrF (f + 1) false ('"' :: rest) = some ([], rest) := by
  simp [parseStrF]

theorem parseStrF_step_esc (f : Nat) (rest : List Char) :
    parseStrF (f + 1) false ('\\' :: rest) = parseStrF f true rest := by
  simp [parseStrF]

theorem parseStrF_step_lit (f : Nat) (c : Char) (rest : List Char)
    (h1 : c ≠ '"') (h2 : c ≠ '\\') (h3 : ¬ c.toNat < 0x20) :
    parseStrF (f + 1) false (c :: rest) =
      (parseStrF f false rest).map (fun p => (c :: p.1, p.2)) := by
  simp [parseStrF, h1, h2, h3]

theorem parseStrF_esc_simple (f : Nat) (rest : List Char) (e d : Char)
    (h : (e, d) ∈ [('"', '"'), ('\\', '\\'), ('/', '/'), ('b', '\x08'),
      ('f', '\x0c'), ('n', '\n'), ('r', '\r'), ('t', '\t')]) :
    parseStrF (f + 1) true (e :: rest) =
      (parseStrF f false rest).map (fun p => (d :: p.1, p.2)) := by
  fin_cases h <;> simp [parseStrF]

theorem parseStrF_esc_u_bmp (f : Nat) (h1 h2 h3 h4 : Char)
    (rest : List Char) (n1 : Nat) (hhex : hex4 h1 h2 h3 h4 = some n1)
    (hns : ¬(0xD800 ≤ n1 ∧ n1 ≤ 0xDBFF)) :
    parseStrF (f + 1) true ('u' :: h1 :: h2 :: h3 :: h4 :: rest) =
      (parseStrF f false rest).map
        (fun p => (Char.ofNat n1 :: p.1, p.2)) := by
  simp only [parseStrF, hhex]
  rw [if_pos trivial, if_neg hns]
  rw [if_neg (by decide), if_neg (by decide), if_neg (by decide),
    if_neg (by decide), if_neg (by decide), if_neg (by decide),
    if_neg (by decide), if_neg (by decide)]

theorem parseStrF_esc_u_pair (f : Nat) (h1 h2 h3 h4 g1 g2 g3 g4 : Char)
    (rest : List Char) (n1 n2 : Nat) (hx1 : hex4 h1 h2 h3 h4 = some n1)
    (hx2 : hex4 g1 g2 g3 g4 = some n2)
    (hs1 : 0xD800 ≤ n1 ∧ n1 ≤ 0xDBFF) (hs2 : 0xDC00 ≤ n2 ∧ n2 ≤ 0xDFFF) :
    parseStrF (f + 1) true
        ('u' :: h1 :: h2 :: h3 :: h4 :: '\\' :: 'u' ::
          g1 :: g2 :: g3 :: g4 :: rest) =
      (parseStrF f false rest).map
        (fun p =>
          (Char.ofNat (0x10000 + (n1 - 0xD800) * 0x400 + (n2 - 0xDC00)) ::
            p.1, p.2)) := by
  simp only [parseStrF, hx1, hx2]
  rw [if_pos trivial, if_pos hs1, if_pos hs2]
  rw [if_neg (by decide), if_neg (by decide), if_neg (by decide),
    if_neg (by decide), if_neg (by decide), if_neg (by decide),
    if_neg (by decide), if_neg (by decide)]

theorem parseStrF_escape :
    ∀ (cs : List Char) (fuel : Nat) (rest : List Char),
      ((cs.map escChar).flatten).length < fuel →
      parseStrF fuel false ((cs.map escChar).flatten ++ ('"' :: rest)) =
        some (cs, rest) := by
  intro cs
  induction cs with
  | nil =>
    intro fuel rest h
    cases fuel with
    | zero => omega
    | succ f => exact parseStrF_step_quote f rest
  | cons c cs2 ih =>
    intro fuel rest h
    rw [List.map_cons, List.flatten_cons] at h ⊢
    rw [List.append_assoc]
    by_cases h1 : c = '"'
    · subst h1
      rw [show escChar '"' = ['\\', '"'] from rfl] at h ⊢
      cases fuel with
      | zero => omega
      | succ f =>
        cases f with
        | zero => rw [List.length_append] at h; simp only [List.length_cons, List.length_nil] at h; omega
        | succ f2 =>
          simp only [List.cons_append, List.nil_append]
          rw [parseStrF_step_esc,
            parseStrF_esc_simple f2 _ '"' '"' (by decide),
            ih f2 rest (by rw [List.length_append] at h; simp only [List.length_cons, List.length_nil] at h; omega)]
          rfl
    · by_cases h2 : c = '\\'
      · subst h2
        rw [show escChar '\\' = ['\\', '\\'] from rfl] at h ⊢
        cases fuel with
        | zero => omega
        | succ f =>
          cases f with
          | zero => rw [List.length_append] at h; simp only [List.length_cons, List.length_nil] at h; omega
          | succ f2 =>
            simp only [List.cons_append, List.nil_append]
            rw [parseStrF_step_esc,
              parseStrF_esc_simple f2 _ '\\' '\\' (by decide),
              ih f2 rest (by rw [List.length_append] at h; simp only [List.length_cons, List.length_nil] at h; omega)]
            rfl
      · by_cases h3 : c = '\n'
        · subst h3
          rw [show escChar '\n' = ['\\', 'n'] from rfl] at h ⊢
          cases fuel with
          | zero => omega
          | succ f =>
            cases f with
            | zero => rw [List.length_append] at h; simp only [List.length_cons, List.length_nil] at h; omega
            | succ f2 =>
              simp only [List.cons_append, List.nil_append]
              rw [parseStrF_step_esc,
                parseStrF_esc_simple f2 _ 'n' '\n' (by decide),
                ih f2 rest (by rw [List.length_append] at h; simp only [List.length_cons, List.length_nil] at h; omega)]
              rfl
        · by_cases h4 : c = '\r'
          · subst h4
            rw [show escChar '\r' = ['\\', 'r'] from rfl] at h ⊢
            cases fuel with
            | zero => omega
            | succ f =>
              cases f with
              | zero => rw [List.length_append] at h; simp only [List.length_cons, List.length_nil] at h; omega
              | succ f2 =>
                simp only [List.cons_append, List.nil_append]
                rw [parseStrF_step_esc,
                  parseStrF_esc_simple f2 _ 'r' '\r' (by decide),
                  ih f2 rest (by rw [List.length_append] at h; simp only [List.length_cons, List.length_nil] at h; omega)]
                rfl
          · by_cases h5 : c = '\t'
            · subst h5
              rw [show escChar '\t' = ['\\', 't'] from rfl] at h ⊢
              cases fuel with
              | zero => omega
              | succ f =>
                cases f with
                | zero => rw [List.length_append] at h; simp only [List.length_cons, List.length_nil] at h; omega
                | succ f2 =>
                  simp only [List.cons_append, List.nil_append]
                  rw [parseStrF_step_esc,
                    parseStrF_esc_simple f2 _ 't' '\t' (by decide),
                    ih f2 rest (by rw [List.length_append] at h; simp only [List.length_cons, List.length_nil] at h; omega)]
                  rfl
            · by_cases h6 : c = '\x08'
              · subst h6
                rw [show escChar '\x08' = ['\\', 'b'] from rfl] at h ⊢
                cases fuel with
                | zero => omega
                | succ f =>
                  cases f with
                  | zero => rw [List.length_append] at h; simp only [List.length_cons, List.length_nil] at h; omega
                  | succ f2 =>
                    simp only [List.cons_append, List.nil_append]
                    rw [parseStrF_step_esc,
                      parseStrF_esc_simple f2 _ 'b' '\x08' (by decide),
                      ih f2 rest (by rw [List.length_append] at h; simp only [List.length_cons, List.length_nil] at h; omega)]
                    rfl
              · by_cases h7 : c = '\x0c'
                · subst h7
                  rw [show escChar '\x0c' = ['\\', 'f'] from rfl] at h ⊢
                  cases fuel with
                  | zero => omega
                  | succ f =>
                    cases f with
                    | zero => rw [List.length_append] at h; simp only [List.length_cons, List.length_nil] at h; omega
                    | succ f2 =>
                      simp only [List.cons_append, List.nil_append]
                      rw [parseStrF_step_esc,
                        parseStrF_esc_simple f2 _ 'f' '\x0c' (by decide),
                        ih f2 rest (by rw [List.length_append] at h; simp only [List.length_cons, List.length_nil] at h; omega)]
                      rfl
                · by_cases h8 : c.toNat < 0x20
                  · rw [show escChar c = '\\' :: 'u' :: toHex4 c.toNat from by
                      simp [escChar, h1, h2, h3, h4, h5, h6, h7, h8]] at h ⊢
                    rw [toHex4] at h ⊢
                    cases fuel with
                    | zero => omega
                    | succ f =>
                      cases f with
                      | zero => rw [List.length_append] at h; simp only [List.length_cons, List.length_nil] at h; omega
                      | succ f2 =>
                        simp only [List.cons_append, List.nil_append]
                        rw [parseStrF_step_esc,
                          parseStrF_esc_u_bmp f2 _ _ _ _ _ c.toNat
                            (hex4_toHex4 c.toNat (by omega)) (by omega),
                          ih f2 rest (by rw [List.length_append] at h; simp only [List.length_cons, List.length_nil] at h; omega),
                          Char.ofNat_toNat]
                        rfl
                  · by_cases h9 : c.toNat ≤ 0x7e
                    · rw [show escChar c = [c] from by
                        simp [escChar, h1, h2, h3, h4, h5, h6, h7, h8, h9]]
                        at h ⊢
                      cases fuel with
                      | zero => omega
                      | succ f =>
                        simp only [List.cons_append, List.nil_append]
                        rw [parseStrF_step_lit f c _ h1 h2 h8,
                          ih f rest (by rw [List.length_append] at h; simp only [List.length_cons, List.length_nil] at h; omega)]
                        rfl
                    · by_cases h10 : c.toNat < 0x10000
                      · rw [show escChar c = '\\' :: 'u' :: toHex4 c.toNat
                            from by
                          simp [escChar, h1, h2, h3, h4, h5, h6, h7, h8, h9,
                            h10]] at h ⊢
                        rw [toHex4] at h ⊢
                        cases fuel with
                        | zero => omega
                        | succ f =>
                          cases f with
                          | zero => rw [List.length_append] at h; simp only [List.length_cons, List.length_nil] at h; omega
                          | succ f2 =>
                            simp only [List.cons_append, List.nil_append]
                            have hval := char_toNat_valid c
                            rw [parseStrF_step_esc,
                              parseStrF_esc_u_bmp f2 _ _ _ _ _ c.toNat
                                (hex4_toHex4 c.toNat h10) (by omega),
                              ih f2 rest (by rw [List.length_append] at h; simp only [List.length_cons, List.length_nil] at h; omega),
                              Char.ofNat_toNat]
                            rfl
                      · have hval := char_toNat_valid c
                        rw [show escChar c = '\\' :: 'u' ::
                            (toHex4 (0xD800 + (c.toNat - 0x10000) / 0x400) ++
                              ('\\' :: 'u' ::
                                toHex4 (0xDC00 + (c.toNat - 0x10000) % 0x400)))
                            from by
                          simp [escChar, h1, h2, h3, h4, h5, h6, h7, h8, h9,
                            h10]] at h ⊢
                        rw [toHex4, toHex4] at h ⊢
                        cases fuel with
                        | zero => omega
                        | succ f =>
                          cases f with
                          | zero => rw [List.length_append] at h; simp only [List.length_cons, List.length_nil] at h; omega
                          | succ f2 =>
                            simp only [List.cons_append, List.nil_append]
                            rw [parseStrF_step_esc,
                              parseStrF_esc_u_pair f2 _ _ _ _ _ _ _ _ _
                                (0xD800 + (c.toNat - 0x10000) / 0x400)
                                (0xDC00 + (c.toNat - 0x10000) % 0x400)
                                (hex4_toHex4 _ (by omega))
                                (hex4_toHex4 _ (by
                                  have := Nat.mod_lt (c.toNat - 0x10000)
                                    (show 0 < 0x400 from by omega)
                                  omega))
                                (by omega)
                                (by
                                  have := Nat.mod_lt (c.toNat - 0x10000)
                                    (show 0 < 0x400 from by omega)
                                  omega),
                              ih f2 rest (by rw [List.length_append] at h; simp only [List.length_cons, List.length_nil] at h; omega)]
                            rw [show 0x10000 +
                                (0xD800 + (c.toNat - 0x10000) / 0x400 -
                                  0xD800) * 0x400 +
                                (0xDC00 + (c.toNat - 0x10000) % 0x400 -
                                  0xDC00) = c.toNat from by
                              have := Nat.div_add_mod (c.toNat - 0x10000) 0x400
                              omega]
                            rw [Char.ofNat_toNat]
                            rfl

theorem parseStringBody_escape (s : List Char) (rest : List Char) :
    parseStringBody ((s.map escChar).flatten ++ ('"' :: rest)) =
      some (s, rest) := by
  rw [parseStringBody]
  exact parseStrF_escape s _ rest
    (by rw [List.length_append, List.length_cons]; omega)

/-! ## Claim C7: the number scanner reads back a grammar-shaped lexeme -/

theorem spanDigits_append (ds rest : List Char)
    (hd : ∀ d ∈ ds, d.isDigit = true)
    (hr : ∀ c, rest.head? = some c → c.isDigit = false) :
    spanDigits (ds ++ rest) = (ds, rest) := by
  induction ds with
  | nil =>
    rw [List.nil_append]
    cases rest with
    | nil => rfl
    | cons c r =>
      rw [spanDigits, List.takeWhile_cons, List.dropWhile_cons]
      rw [hr c rfl]
      simp
  | cons d ds2 ih =>
    rw [List.cons_append, spanDigits, List.takeWhile_cons,
      List.dropWhile_cons, hd d (List.mem_cons_self _ _)]
    have ih2 := ih (fun x hx => hd x (List.mem_cons_of_mem _ hx))
    rw [spanDigits] at ih2
    simp only [if_pos]
    rw [Prod.mk.injEq] at ih2 ⊢
    exact ⟨by rw [ih2.1], ih2.2⟩

theorem parseIntPart_shape (ip rest : List Char) (h : IntPartShape ip)
    (hr : ∀ c, rest.head? = some c → c.isDigit = false) :
    parseIntPart (ip ++ rest) = some (ip, rest) := by
  rcases h with h | ⟨c, ds, hip, hdig, hne0, hds⟩
  · subst h
    rw [List.cons_append, List.nil_append, parseIntPart, if_pos rfl]
  · subst hip
    rw [List.cons_append, parseIntPart, if_neg hne0, if_pos hdig,
      spanDigits_append ds rest hds hr]

theorem parseFracPart_shape (fp rest : List Char) (h : FracShape fp)
    (hr : ∀ c, rest.head? = some c → c.isDigit = false ∧ c ≠ '.') :
    parseFracPart (fp ++ rest) = some (fp, rest) := by
  rcases h with h | ⟨ds, hfp, hne, hds⟩
  · subst h
    rw [List.nil_append]
    cases rest with
    | nil => rfl
    | cons c r =>
      rw [parseFracPart, if_neg (hr c rfl).2]
  · subst hfp
    rw [List.cons_append, parseFracPart, if_pos rfl,
      spanDigits_append ds rest hds (fun c hc => (hr c hc).1)]
    rw [if_neg (by simpa using hne)]

theorem parseExpPart_shape (ep rest : List Char) (h : ExpShape ep)
    (hr : ∀ c, rest.head? = some c →
      c.isDigit = false ∧ c ≠ 'e' ∧ c ≠ 'E') :
    parseExpPart (ep ++ rest) = some (ep, rest) := by
  rcases h with h | ⟨e, sg, ds, hep, he, hsg, hne, hds⟩
  · subst h
    rw [List.nil_append]
    cases rest with
    | nil => rfl
    | cons c r =>
      simp only [parseExpPart]
      rw [if_neg (by
        intro hor
        rcases hor with h | h
        · exact (hr c rfl).2.1 h
        · exact (hr c rfl).2.2 h)]
  · subst hep
    rcases List.exists_cons_of_ne_nil hne with ⟨d0, ds2, hds2⟩
    subst hds2
    have hrr : ∀ c, rest.head? = some c → c.isDigit = false :=
      fun c hc => (hr c hc).1
    have hspan : spanDigits (d0 :: (ds2 ++ rest)) = (d0 :: ds2, rest) := by
      rw [← List.cons_append]
      exact spanDigits_append (d0 :: ds2) rest hds hrr
    rcases hsg with hsg | hsg | hsg
    · subst hsg
      rw [show (e :: ([] ++ d0 :: ds2)) ++ rest =
        e :: d0 :: (ds2 ++ rest) from by simp]
      simp only [parseExpPart, if_pos he]
      rw [if_neg (by
        have hd0 := hds d0 (List.mem_cons_self _ _)
        intro hor
        rcases hor with hh | hh <;> (rw [hh] at hd0; simp at hd0))]
      rw [hspan]
      rw [if_neg (by simp)]
      simp
    · subst hsg
      rw [show (e :: (['+'] ++ d0 :: ds2)) ++ rest =
        e :: '+' :: d0 :: (ds2 ++ rest) from by simp]
      simp only [parseExpPart, if_pos he, true_or, if_true]
      rw [hspan]
      rw [if_neg (by simp)]
      simp
    · subst hsg
      rw [show (e :: (['-'] ++ d0 :: ds2)) ++ rest =
        e :: '-' :: d0 :: (ds2 ++ rest) from by simp]
      simp only [parseExpPart, if_pos he, or_true, if_true]
      rw [hspan]
      rw [if_neg (by simp)]
      simp

theorem parseNumber_shape (cs rest : List Char) (h : NumShape cs)
    (hb : numBoundary rest) : parseNumber (cs ++ rest) = some (cs, rest) := by
  obtain ⟨sign, ip, fp, ep, hcs, hsign, hip, hfp, hep⟩ := h
  subst hcs
  have hb' : ∀ c, rest.head? = some c →
      c.isDigit = false ∧ c ≠ '.' ∧ c ≠ 'e' ∧ c ≠ 'E' := by
    intro c hc
    have hnb := hb c hc
    refine ⟨?_, ?_, ?_, ?_⟩
    · cases hd : c.isDigit with
      | true => exact absurd (Or.inl hd) hnb
      | false => rfl
    · exact fun hh => hnb (Or.inr (Or.inl hh))
    · exact fun hh => hnb (Or.inr (Or.inr (Or.inl hh)))
    · exact fun hh => hnb (Or.inr (Or.inr (Or.inr hh)))
  have hExp := parseExpPart_shape ep rest hep
    (fun c hc => ⟨(hb' c hc).1, (hb' c hc).2.2.1, (hb' c hc).2.2.2⟩)
  have hr_fp : ∀ c, (ep ++ rest).head? = some c →
      c.isDigit = false ∧ c ≠ '.' := by
    rcases hep with hh | ⟨e, sg, ds, hh, he, _, _, _⟩
    · subst hh
      rw [List.nil_append]
      exact fun c hc => ⟨(hb' c hc).1, (hb' c hc).2.1⟩
    · subst hh
      rw [List.cons_append]
      intro c hc
      rw [List.head?_cons, Option.some.injEq] at hc
      subst hc
      rcases he with he | he <;> (subst he; exact ⟨by decide, by decide⟩)
  have hFrac := parseFracPart_shape fp (ep ++ rest) hfp hr_fp
  have hr_ip : ∀ c, (fp ++ (ep ++ rest)).head? = some c →
      c.isDigit = false := by
    rcases hfp with hh | ⟨ds, hh, _, _⟩
    · subst hh
      rw [List.nil_append]
      exact fun c hc => (hr_fp c hc).1
    · subst hh
      rw [List.cons_append]
      intro c hc
      rw [List.head?_cons, Option.some.injEq] at hc
      subst hc
      decide
  have hInt := parseIntPart_shape ip (fp ++ (ep ++ rest)) hip hr_ip
  rw [show (sign ++ (ip ++ (fp ++ ep))) ++ rest =
    sign ++ (ip ++ (fp ++ (ep ++ rest))) from by simp [List.append_assoc]]
  have hip_ne : ip ≠ [] := by
    rcases hip with hh | ⟨c, ds, hh, _, _, _⟩ <;> (subst hh; simp)
  obtain ⟨c0, ip2, hip2⟩ := List.exists_cons_of_ne_nil hip_ne
  have hc0 : c0 ≠ '-' := by
    rcases hip with hh | ⟨c, ds, hh, hdig, _, _⟩
    · rw [hip2] at hh
      cases hh
      decide
    · rw [hip2] at hh
      injection hh with h1 h2
      subst h1
      intro he
      rw [he] at hdig
      simp at hdig
  rcases hsign with hsign | hsign
  · subst hsign
    rw [List.nil_append]
    rw [parseNumber]
    rw [show parseSign (ip ++ (fp ++ (ep ++ rest))) =
        ([], ip ++ (fp ++ (ep ++ rest))) from by
      rw [hip2, List.cons_append, parseSign, if_neg hc0]]
    simp only [hInt, hFrac, hExp]
  · subst hsign
    rw [List.cons_append, List.nil_append]
    rw [parseNumber]
    rw [show parseSign ('-' :: (ip ++ (fp ++ (ep ++ rest)))) =
        (['-'], ip ++ (fp ++ (ep ++ rest))) from by
      rw [parseSign, if_pos rfl]]
    simp only [hInt, hFrac, hExp]

/-! ## Claim C7: the number scanner only produces grammar-shaped lexemes -/

theorem parseSign_fst (cs : List Char) :
    (parseSign cs).1 = [] ∨ (parseSign cs).1 = ['-'] := by
  cases cs with
  | nil => exact Or.inl rfl
  | cons c r =>
    rw [parseSign]
    by_cases h : c = '-'
    · rw [if_pos h]
      exact Or.inr rfl
    · rw [if_neg h]
      exact Or.inl rfl

theorem parseIntPart_sound (cs ip rest : List Char)
    (h : parseIntPart cs = some (ip, rest)) : IntPartShape ip := by
  cases cs with
  | nil => exact absurd h (by rw [parseIntPart]; simp)
  | cons c r =>
    rw [parseIntPart] at h
    split at h
    · rename_i h0
      injection h with h1
      injection h1 with h1 h2
      exact Or.inl h1.symm
    · split at h
      · rename_i h0 hdig
        injection h with h1
        injection h1 with h1 h2
        refine Or.inr ⟨c, (spanDigits r).1, h1.symm, hdig, h0, ?_⟩
        intro d hd
        exact List.mem_takeWhile_imp hd
      · exact absurd h (by simp)

theorem parseFracPart_sound (cs fp rest : List Char)
    (h : parseFracPart cs = some (fp, rest)) : FracShape fp := by
  cases cs with
  | nil =>
    rw [parseFracPart] at h
    injection h with h1
    injection h1 with h1 h2
    exact Or.inl h1.symm
  | cons c r =>
    rw [parseFracPart] at h
    split at h
    · split at h
      · exact absurd h (by simp)
      · rename_i hd hne
        injection h with h1
        injection h1 with h1 h2
        refine Or.inr ⟨(spanDigits r).1, h1.symm, by simpa using hne, ?_⟩
        intro d hd2
        exact List.mem_takeWhile_imp hd2
    · injection h with h1
      injection h1 with h1 h2
      exact Or.inl h1.symm

theorem parseExpPart_sound (cs ep rest : List Char)
    (h : parseExpPart cs = some (ep, rest)) : ExpShape ep := by
  cases cs with
  | nil =>
    rw [parseExpPart] at h
    injection h with h1
    injection h1 with h1 h2
    exact Or.inl h1.symm
  | cons e r =>
    simp only [parseExpPart.eq_def] at h
    split at h
    · rename_i he
      split at h
      · exact absurd h (by simp)
      · rename_i s r2
        split at h
        · rename_i hsgn
          split at h
          · exact absurd h (by simp)
          · rename_i hne
            injection h with h1
            injection h1 with h1 h2
            refine Or.inr ⟨e, [s], (spanDigits r2).1, by
              rw [← h1]; rfl, he, ?_, by simpa using hne,
              fun d hd => List.mem_takeWhile_imp hd⟩
            rcases hsgn with hh | hh
            · exact Or.inr (Or.inl (by rw [hh]))
            · exact Or.inr (Or.inr (by rw [hh]))
        · rename_i hsgn
          split at h
          · exact absurd h (by simp)
          · rename_i hne
            injection h with h1
            injection h1 with h1 h2
            exact Or.inr ⟨e, [], (spanDigits (s :: r2)).1, by
              rw [← h1]; rfl, he, Or.inl rfl, by simpa using hne,
              fun d hd => List.mem_takeWhile_imp hd⟩
    · injection h with h1
      injection h1 with h1 h2
      exact Or.inl h1.symm

theorem parseNumber_sound (cs lex rest : List Char)
    (h : parseNumber cs = some (lex, rest)) : NumShape lex := by
  rw [parseNumber] at h
  split at h
  · exact absurd h (by simp)
  · rename_i ip hInt
    split at h
    · exact absurd h (by simp)
    · rename_i fp hFrac
      split at h
      · exact absurd h (by simp)
      · rename_i ep hExp
        injection h with h1
        injection h1 with h1 h2
        exact ⟨(parseSign cs).1, ip.1, fp.1, ep.1, h1.symm, parseSign_fst cs,
          parseIntPart_sound _ _ _ hInt, parseFracPart_sound _ _ _ hFrac,
          parseExpPart_sound _ _ _ hExp⟩

/-! ## Claim C7: Python dict building preserves keys and members -/

theorem insertKey_keys (ms : List (String × Json)) (k : String) (v : Json) :
    (insertKey ms k v).map Prod.fst =
      if k ∈ ms.map Prod.fst then ms.map Prod.fst
      else ms.map Prod.fst ++ [k] := by
  induction ms with
  | nil => simp [insertKey]
  | cons m ms2 ih =>
    obtain ⟨k0, v0⟩ := m
    rw [insertKey]
    by_cases h : k0 = k
    · subst h
      rw [if_pos rfl]
      simp
    · rw [if_neg h]
      by_cases h2 : k ∈ ms2.map Prod.fst
      · simp only [List.map_cons, ih, if_pos h2]
        rw [if_pos (by simp [h2])]
      · simp only [List.map_cons, ih, if_neg h2]
        rw [if_neg (by
          simp only [List.mem_cons]
          rintro (hh | hh)
          · exact h hh.symm
          · exact h2 hh)]
        simp

theorem mem_insertKey (ms : List (String × Json)) (k : String) (v : Json)
    (kv : String × Json) (h : kv ∈ insertKey ms k v) :
    kv ∈ ms ∨ kv = (k, v) := by
  induction ms with
  | nil =>
    rw [insertKey] at h
    rcases List.mem_cons.mp h with hh | hh
    · exact Or.inr hh
    · cases hh
  | cons m ms2 ih =>
    obtain ⟨k0, v0⟩ := m
    rw [insertKey] at h
    split at h
    · rename_i heq
      subst heq
      rcases List.mem_cons.mp h with hh | hh
      · exact Or.inr hh
      · exact Or.inl (List.mem_cons_of_mem _ hh)
    · rcases List.mem_cons.mp h with hh | hh
      · exact Or.inl (by rw [hh]; exact List.mem_cons_self _ _)
      · rcases ih hh with hh2 | hh2
        · exact Or.inl (List.mem_cons_of_mem _ hh2)
        · exact Or.inr hh2

theorem foldl_insertKey_nodup :
    ∀ (l : List (String × Json)) (acc : List (String × Json)),
      (acc.map Prod.fst).Nodup →
      ((l.foldl (fun a kv => insertKey a kv.1 kv.2) acc).map Prod.fst).Nodup := by
  intro l
  induction l with
  | nil => intro acc h; exact h
  | cons kv l2 ih =>
    intro acc h
    rw [List.foldl_cons]
    apply ih
    rw [insertKey_keys]
    split
    · exact h
    · rename_i hnot
      rw [List.nodup_append]
      exact ⟨h, List.nodup_singleton _, by simp [hnot]⟩

theorem collapseKeys_nodup (l : List (String × Json)) :
    ((collapseKeys l).map Prod.fst).Nodup :=
  foldl_insertKey_nodup l [] List.nodup_nil

theorem mem_foldl_insertKey :
    ∀ (l : List (String × Json)) (acc : List (String × Json))
      (kv : String × Json),
      kv ∈ l.foldl (fun a kv => insertKey a kv.1 kv.2) acc →
      kv ∈ acc ∨ kv ∈ l := by
  intro l
  induction l with
  | nil => intro acc kv h; exact Or.inl h
  | cons m l2 ih =>
    intro acc kv h
    rw [List.foldl_cons] at h
    rcases ih _ kv h with hh | hh
    · rcases mem_insertKey _ _ _ _ hh with hh2 | hh2
      · exact Or.inl hh2
      · exact Or.inr (by rw [hh2]; exact List.mem_cons_self _ _)
    · exact Or.inr (List.mem_cons_of_mem _ hh)

theorem mem_collapseKeys (l : List (String × Json)) (kv : String × Json)
    (h : kv ∈ collapseKeys l) : kv ∈ l := by
  rcases mem_foldl_insertKey l [] kv h with hh | hh
  · cases hh
  · exact hh

theorem insertKey_not_mem (ms : List (String × Json)) (k : String) (v : Json)
    (h : k ∉ ms.map Prod.fst) : insertKey ms k v = ms ++ [(k, v)] := by
  induction ms with
  | nil => rfl
  | cons m ms2 ih =>
    obtain ⟨k0, v0⟩ := m
    rw [insertKey, if_neg (by
      intro hh
      exact h (by simp [hh]))]
    rw [ih (by
      intro hh
      exact h (by simp [hh]))]
    rfl

theorem foldl_insertKey_of_nodup :
    ∀ (l : List (String × Json)) (acc : List (String × Json)),
      ((acc.map Prod.fst ++ l.map Prod.fst)).Nodup →
      l.foldl (fun a kv => insertKey a kv.1 kv.2) acc = acc ++ l := by
  intro l
  induction l with
  | nil => intro acc _; simp
  | cons m l2 ih =>
    intro acc h
    obtain ⟨k, v⟩ := m
    rw [List.foldl_cons]
    have hk : k ∉ acc.map Prod.fst := by
      rw [List.nodup_append] at h
      intro hh
      exact h.2.2 hh (by simp)
    rw [insertKey_not_mem acc k v hk]
    rw [ih (acc ++ [(k, v)]) (by
      rw [show (acc ++ [(k, v)]).map Prod.fst ++ (l2.map Prod.fst) =
        acc.map Prod.fst ++ (((k, v) :: l2).map Prod.fst) from by simp]
      exact h)]
    simp

theorem collapseKeys_of_nodup (ms : List (String × Json))
    (h : (ms.map Prod.fst).Nodup) : collapseKeys ms = ms := by
  rw [collapseKeys, foldl_insertKey_of_nodup ms [] (by simpa using h)]
  rfl

/-! ## Claim C7: the `.jsonl` re-serialization round trip

Parser soundness (`parseJF_wf`), printer/parser completeness
(`parseJF_dumps`), and the round trip `loads (dumps v) = v` on the image
of `loads`, assembled into the `.jsonl` statement. -/

set_option maxHeartbeats 1000000 in
theorem parseJF_wf : ∀ fuel : Nat,
    (∀ cs v rest, parseJF fuel 0 cs = some (v, rest) → JWf v) ∧
    (∀ cs v rest, parseJF fuel 1 cs = some (v, rest) →
      ∃ vs, v = .arr vs ∧ ∀ x ∈ vs, JWf x) ∧
    (∀ cs v rest, parseJF fuel 2 cs = some (v, rest) →
      ∃ ms, v = .obj ms ∧ ∀ kv ∈ ms, JWf kv.2) := by
  intro fuel
  induction fuel with
  | zero =>
    refine ⟨?_, ?_, ?_⟩ <;> intro cs v rest h <;>
      exact absurd h (by rw [parseJF]; simp)
  | succ fuel ih =>
    obtain ⟨ih0, ih1, ih2⟩ := ih
    refine ⟨?_, ?_, ?_⟩
    · intro cs v rest h
      cases cs with
      | nil =>
        simp only [parseJF] at h
        exact absurd h (by simp)
      | cons c r =>
        simp only [parseJF] at h
        by_cases hn : c = 'n'
        · rw [if_pos hn] at h
          split at h
          · cases h
            exact JWf.null
          · cases h
        · rw [if_neg hn] at h
          by_cases ht : c = 't'
          · rw [if_pos ht] at h
            split at h
            · cases h
              exact JWf.bool true
            · cases h
          · rw [if_neg ht] at h
            by_cases hf : c = 'f'
            · rw [if_pos hf] at h
              split at h
              · cases h
                exact JWf.bool false
              · cases h
            · rw [if_neg hf] at h
              by_cases hN : c = 'N'
              · rw [if_pos hN] at h
                split at h
                · cases h
                  exact JWf.num _ (Or.inr (Or.inl rfl))
                · cases h
              · rw [if_neg hN] at h
                by_cases hI : c = 'I'
                · rw [if_pos hI] at h
                  split at h
                  · cases h
                    exact JWf.num _ (Or.inr (Or.inr (Or.inl rfl)))
                  · cases h
                · rw [if_neg hI] at h
                  by_cases hq : c = '"'
                  · rw [if_pos hq] at h
                    cases hps : parseStringBody r with
                    | none =>
                      rw [hps] at h
                      simp only [Option.map] at h
                      cases h
                    | some p =>
                      rw [hps] at h
                      simp only [Option.map] at h
                      cases h
                      exact JWf.str _
                  · rw [if_neg hq] at h
                    by_cases hbr : c = '['
                    · rw [if_pos hbr] at h
                      split at h
                      · cases h
                        exact JWf.arr [] (by simp)
                      · split at h
                        · cases h
                        · rename_i v' r2 hv'
                          split at h
                          · rename_i vs r3 harr
                            cases h
                            refine JWf.arr (v' :: vs) ?_
                            intro x hx
                            rcases List.mem_cons.mp hx with rfl | hx
                            · exact ih0 _ _ _ hv'
                            · obtain ⟨vs', hveq, hall⟩ := ih1 _ _ _ harr
                              injection hveq with hvs
                              subst hvs
                              exact hall x hx
                          · cases h
                    · rw [if_neg hbr] at h
                      by_cases hcb : c = '{'
                      · rw [if_pos hcb] at h
                        split at h
                        · cases h
                          exact JWf.obj [] (by simp) (by simp)
                        · split at h
                          · cases h
                          · rename_i k r3 hps
                            split at h
                            · split at h
                              · cases h
                              · rename_i v' r5 hv'
                                split at h
                                · rename_i ms r6 hobj
                                  cases h
                                  refine JWf.obj _ ?_ (collapseKeys_nodup _)
                                  intro kv hkv
                                  have hmem := mem_collapseKeys _ kv hkv
                                  rcases List.mem_cons.mp hmem with rfl | hkv2
                                  · exact ih0 _ _ _ hv'
                                  · obtain ⟨ms', hmeq, hall⟩ :=
                                      ih2 _ _ _ hobj
                                    injection hmeq with hms
                                    subst hms
                                    exact hall kv hkv2
                                · cases h
                            · cases h
                        · cases h
                      · rw [if_neg hcb] at h
                        by_cases hm : c = '-'
                        · rw [if_pos hm] at h
                          split at h
                          · cases h
                            exact JWf.num _
                              (Or.inr (Or.inr (Or.inr rfl)))
                          · split at h
                            · rename_i lex r' hpn
                              cases h
                              exact JWf.num _
                                (Or.inl (parseNumber_sound _ _ _ hpn))
                            · cases h
                        · rw [if_neg hm] at h
                          split at h
                          · rename_i lex r' hpn
                            cases h
                            exact JWf.num _
                              (Or.inl (parseNumber_sound _ _ _ hpn))
                          · cases h
    · intro cs v rest h
      simp only [parseJF] at h
      split at h
      · cases h
        exact ⟨[], rfl, by simp⟩
      · split at h
        · cases h
        · rename_i v' r2 hv'
          split at h
          · rename_i vs r3 harr
            cases h
            refine ⟨v' :: vs, rfl, ?_⟩
            intro x hx
            rcases List.mem_cons.mp hx with rfl | hx
            · exact ih0 _ _ _ hv'
            · obtain ⟨vs', hveq, hall⟩ := ih1 _ _ _ harr
              injection hveq with hvs
              subst hvs
              exact hall x hx
          · cases h
      · cases h
    · intro cs v rest h
      simp only [parseJF] at h
      split at h
      · cases h
        exact ⟨[], rfl, by simp⟩
      · split at h
        · split at h
          · cases h
          · rename_i k r3 hps
            split at h
            · split at h
              · cases h
              · rename_i v' r5 hv'
                split at h
                · rename_i ms r6 hobj
                  cases h
                  refine ⟨(String.mk k, v') :: ms, rfl, ?_⟩
                  intro kv hkv
                  rcases List.mem_cons.mp hkv with rfl | hkv2
                  · exact ih0 _ _ _ hv'
                  · obtain ⟨ms', hmeq, hall⟩ := ih2 _ _ _ hobj
                    injection hmeq with hms
                    subst hms
                    exact hall kv hkv2
                · cases h
            · cases h
        · cases h
      · cases h

/-- The element round-trip property threaded through the printer
completeness proof: the printed form of `v`, followed by any continuation
the number grammar cannot extend, is scanned back as `v`. -/

theorem numBoundary_nil : numBoundary [] := by
  intro c hc
  simp at hc

theorem numBoundary_cons (c : Char) (t : List Char)
    (h : ¬(c.isDigit = true ∨ c = '.' ∨ c = 'e' ∨ c = 'E')) :
    numBoundary (c :: t) := by
  intro c' hc'
  simp only [List.head?_cons, Option.some.injEq] at hc'
  subst hc'
  exact h

theorem skipWs_not_ws (c : Char) (t : List Char)
    (h : jsonWsChar c = false) : skipWs (c :: t) = c :: t := by
  simp [skipWs, List.dropWhile, h]

theorem skipWs_space (t : List Char) : skipWs (' ' :: t) = skipWs t := by
  simp [skipWs, List.dropWhile]
  rfl

theorem dumps_head (v : Json) (hwf : JWf v) :
    ∃ c t, dumpsList v = c :: t ∧ jsonWsChar c = false ∧ c ≠ ']' := by
  cases hwf with
  | null => exact ⟨'n', _, rfl, by decide, by decide⟩
  | bool b =>
    cases b with
    | true => exact ⟨'t', _, rfl, by decide, by decide⟩
    | false => exact ⟨'f', _, rfl, by decide, by decide⟩
  | str s => exact ⟨'"', _, rfl, by decide, by decide⟩
  | arr es _ =>
    cases es with
    | nil => exact ⟨'[', _, rfl, by decide, by decide⟩
    | cons v vs => exact ⟨'[', _, rfl, by decide, by decide⟩
  | obj ms _ _ =>
    cases ms with
    | nil => exact ⟨'{', _, rfl, by decide, by decide⟩
    | cons m ms2 => exact ⟨'{', _, rfl, by decide, by decide⟩
  | num lit hok =>
    have hd : dumpsList (.num lit) = lit.data := rfl
    rcases hok with hsh | h1 | h2 | h3
    · obtain ⟨sign, ip, fp, ep, hcs, hsign, hip, hfp, hep⟩ := hsh
      rcases hsign with rfl | rfl
      · rw [List.nil_append] at hcs
        rcases hip with rfl | ⟨c0, ds, rfl, hdig, hnz, hds⟩
        · refine ⟨'0', fp ++ ep, ?_, by decide, by decide⟩
          rw [hd, hcs]
          rfl
        · refine ⟨c0, ds ++ (fp ++ ep), ?_, ?_, ?_⟩
          · rw [hd, hcs]
            simp
          · rcases digit_eq_cases c0 hdig with
              rfl|rfl|rfl|rfl|rfl|rfl|rfl|rfl|rfl|rfl <;> decide
          · rcases digit_eq_cases c0 hdig with
              rfl|rfl|rfl|rfl|rfl|rfl|rfl|rfl|rfl|rfl <;> decide
      · refine ⟨'-', ip ++ (fp ++ ep), ?_, by decide, by decide⟩
        rw [hd, hcs]
        rfl
    · subst h1
      exact ⟨'N', _, rfl, by decide, by decide⟩
    · subst h2
      exact ⟨'I', _, rfl, by decide, by decide⟩
    · subst h3
      exact ⟨'-', _, rfl, by decide, by decide⟩

theorem skipWs_dumps (v : Json) (hwf : JWf v) (X : List Char) :
    skipWs (dumpsList v ++ X) = dumpsList v ++ X := by
  obtain ⟨c, t, he, hws, _⟩ := dumps_head v hwf
  rw [he, List.cons_append, skipWs_not_ws _ _ hws]

theorem numBoundary_arrTail (vs : List Json) (rest : List Char) :
    numBoundary (dumpsArrTail vs ++ (']' :: rest)) := by
  cases vs with
  | nil => exact numBoundary_cons _ _ (by decide)
  | cons v vs2 =>
    rw [dumpsArrTail, List.cons_append]
    exact numBoundary_cons _ _ (by decide)

theorem numBoundary_objTail (ms : List (String × Json)) (rest : List Char) :
    numBoundary (dumpsObjTail ms ++ ('}' :: rest)) := by
  cases ms with
  | nil => exact numBoundary_cons _ _ (by decide)
  | cons m ms2 =>
    rw [dumpsObjTail, List.cons_append]
    exact numBoundary_cons _ _ (by decide)

theorem parseJF_arrTail : ∀ (vs : List Json),
    (∀ x ∈ vs, JWf x ∧ RoundTrips x) →
    ∀ (fuel : Nat) (rest : List Char), (dumpsArrTail vs).length < fuel →
      parseJF fuel 1 (dumpsArrTail vs ++ (']' :: rest)) =
        some (.arr vs, rest) := by
  intro vs
  induction vs with
  | nil =>
    intro _ fuel rest hlen
    cases fuel with
    | zero => simp [dumpsArrTail] at hlen
    | succ f =>
      rw [dumpsArrTail, List.nil_append]
      simp only [parseJF]
      rw [skipWs_not_ws _ _ (by decide)]
      rfl
  | cons v vs ih =>
    intro H fuel rest hlen
    have hwf : JWf v := (H v (by simp)).1
    have hrt : RoundTrips v := (H v (by simp)).2
    have Hrest : ∀ x ∈ vs, JWf x ∧ RoundTrips x :=
      fun x hx => H x (by simp [hx])
    rw [dumpsArrTail] at hlen
    cases fuel with
    | zero => simp at hlen
    | succ f =>
      have hlen' : (dumpsList v).length + (dumpsArrTail vs).length + 2 ≤ f := by
        rw [List.length_cons, List.length_cons, List.length_append] at hlen
        omega
      have hin : (dumpsArrTail (v :: vs)) ++ (']' :: rest) =
          ',' :: ' ' ::
            (dumpsList v ++ (dumpsArrTail vs ++ (']' :: rest))) := by
        rw [dumpsArrTail]
        simp [List.append_assoc]
      rw [hin]
      have helem : parseJF f 0
          (dumpsList v ++ (dumpsArrTail vs ++ (']' :: rest))) =
          some (v, dumpsArrTail vs ++ (']' :: rest)) :=
        hrt f _ (by omega) (numBoundary_arrTail vs rest)
      have htail : parseJF f 1 (dumpsArrTail vs ++ (']' :: rest)) =
          some (.arr vs, rest) :=
        ih Hrest f rest (by omega)
      simp only [parseJF]
      rw [skipWs_not_ws _ _ (by decide)]
      simp only [skipWs_space, skipWs_dumps v hwf, helem, htail]

theorem parseJF_objTail : ∀ (ms : List (String × Json)),
    (∀ kv ∈ ms, JWf kv.2 ∧ RoundTrips kv.2) →
    ∀ (fuel : Nat) (rest : List Char), (dumpsObjTail ms).length < fuel →
      parseJF fuel 2 (dumpsObjTail ms ++ ('}' :: rest)) =
        some (.obj ms, rest) := by
  intro ms
  induction ms with
  | nil =>
    intro _ fuel rest hlen
    cases fuel with
    | zero => simp [dumpsObjTail] at hlen
    | succ f =>
      rw [dumpsObjTail, List.nil_append]
      simp only [parseJF]
      rw [skipWs_not_ws _ _ (by decide)]
      rfl
  | cons m ms ih =>
    obtain ⟨k, v⟩ := m
    intro H fuel rest hlen
    have hwf : JWf v := (H (k, v) (by simp)).1
    have hrt : RoundTrips v := (H (k, v) (by simp)).2
    have Hrest : ∀ kv ∈ ms, JWf kv.2 ∧ RoundTrips kv.2 :=
      fun kv hkv => H kv (by simp [hkv])
    rw [dumpsObjTail] at hlen
    cases fuel with
    | zero => simp at hlen
    | succ f =>
      have hlen' : (dumpsList v).length + (dumpsObjTail ms).length + 2 ≤ f := by
        rw [List.length_cons, List.length_cons, List.length_append,
          dumpsMember, List.length_append, quoteString] at hlen
        rw [List.length_cons, List.length_cons, List.length_cons,
          List.length_append] at hlen
        omega
      have hin : (dumpsObjTail ((k, v) :: ms)) ++ ('}' :: rest) =
          ',' :: ' ' :: '"' :: ((k.data.map escChar).flatten ++
            ('"' :: ':' :: ' ' ::
              (dumpsList v ++ (dumpsObjTail ms ++ ('}' :: rest))))) := by
        rw [dumpsObjTail, dumpsMember, quoteString]
        simp [escString, List.append_assoc]
      rw [hin]
      have helem : parseJF f 0
          (dumpsList v ++ (dumpsObjTail ms ++ ('}' :: rest))) =
          some (v, dumpsObjTail ms ++ ('}' :: rest)) :=
        hrt f _ (by omega) (numBoundary_objTail ms rest)
      have htail : parseJF f 2 (dumpsObjTail ms ++ ('}' :: rest)) =
          some (.obj ms, rest) :=
        ih Hrest f rest (by omega)
      simp only [parseJF]
      rw [skipWs_not_ws _ _ (by decide)]
      simp only [skipWs_space, skipWs_not_ws _ _ (by decide : jsonWsChar '"' = false),
        parseStringBody_escape, skipWs_not_ws _ _ (by decide : jsonWsChar ':' = false),
        skipWs_dumps v hwf, helem, htail]

theorem parseJF_step_arr (f : Nat) (X : List Char) :
    parseJF (Nat.succ f) 0 ('[' :: X) =
      match skipWs X with
      | ']' :: r2 => some (.arr [], r2)
      | cs2 =>
        match parseJF f 0 cs2 with
        | none => none
        | some (v, r2) =>
          match parseJF f 1 r2 with
          | some (.arr vs, r3) => some (.arr (v :: vs), r3)
          | _ => none := rfl

theorem parseJF_step_obj (f : Nat) (X : List Char) :
    parseJF (Nat.succ f) 0 ('{' :: X) =
      match skipWs X with
      | '}' :: r2 => some (.obj [], r2)
      | '"' :: r2 =>
        match parseStringBody r2 with
        | none => none
        | some (k, r3) =>
          match skipWs r3 with
          | ':' :: r4 =>
            match parseJF f 0 (skipWs r4) with
            | none => none
            | some (v, r5) =>
              match parseJF f 2 r5 with
              | some (.obj ms, r6) =>
                some (.obj (collapseKeys ((String.mk k, v) :: ms)), r6)
              | _ => none
          | _ => none
      | _ => none := rfl

set_option maxHeartbeats 1000000 in

theorem parseJF_dumps : ∀ (v : Json), JWf v →
    ∀ (fuel : Nat) (rest : List Char), (dumpsList v).length < fuel →
      numBoundary rest →
      parseJF fuel 0 (dumpsList v ++ rest) = some (v, rest) := by
  intro v hwf
  induction hwf with
  | null =>
    intro fuel rest hlen hb
    cases fuel with
    | zero => simp [dumpsList] at hlen
    | succ f => simp [dumpsList, parseJF]
  | bool b =>
    intro fuel rest hlen hb
    cases fuel with
    | zero => cases b <;> simp [dumpsList] at hlen
    | succ f => cases b <;> simp [dumpsList, parseJF]
  | str s =>
    intro fuel rest hlen hb
    cases fuel with
    | zero => simp [dumpsList, quoteString] at hlen
    | succ f =>
      have hin : dumpsList (.str s) ++ rest =
          '"' :: ((s.data.map escChar).flatten ++ ('"' :: rest)) := by
        rw [show dumpsList (.str s) = quoteString s from rfl, quoteString]
        simp [escString, List.append_assoc]
      rw [hin]
      simp only [parseJF]
      rw [if_pos trivial]
      rw [parseStringBody_escape]
      rfl
  | num lit hok =>
    intro fuel rest hlen hb
    have hd : dumpsList (.num lit) = lit.data := rfl
    rcases hok with hsh | h1 | h2 | h3
    · obtain ⟨sign, ip, fp, ep, hcs, hsign, hip, hfp, hep⟩ := hsh
      have hpn : parseNumber (lit.data ++ rest) = some (lit.data, rest) :=
        parseNumber_shape _ _ ⟨sign, ip, fp, ep, hcs, hsign, hip, hfp, hep⟩ hb
      cases fuel with
      | zero => omega
      | succ f =>
        rcases hsign with rfl | rfl
        · rw [List.nil_append] at hcs
          have hdig0 : ∃ c0 t0, lit.data = c0 :: t0 ∧ c0.isDigit = true := by
            rcases hip with rfl | ⟨c0, ds, rfl, hdig, hnz, hds⟩
            · exact ⟨'0', fp ++ ep, by rw [hcs]; rfl, by decide⟩
            · exact ⟨c0, ds ++ (fp ++ ep), by rw [hcs]; simp, hdig⟩
          obtain ⟨c0, t0, ht0, hdig⟩ := hdig0
          have hne : ∀ d : Char, d.isDigit = false → c0 ≠ d := by
            intro d hdf he
            rw [he, hdf] at hdig
            cases hdig
          rw [hd, ht0, List.cons_append]
          simp only [parseJF]
          rw [if_neg (hne 'n' (by decide)), if_neg (hne 't' (by decide)),
            if_neg (hne 'f' (by decide)), if_neg (hne 'N' (by decide)),
            if_neg (hne 'I' (by decide)), if_neg (hne '"' (by decide)),
            if_neg (hne '[' (by decide)), if_neg (hne '{' (by decide)),
            if_neg (hne '-' (by decide))]
          rw [show c0 :: (t0 ++ rest) = (c0 :: t0) ++ rest from rfl, ← ht0,
            hpn]
        · have ht0 : lit.data = '-' :: (ip ++ (fp ++ ep)) := by
            rw [hcs]
            rfl
          rw [hd, ht0, List.cons_append]
          simp only [parseJF]
          rw [if_neg (by decide), if_neg (by decide), if_neg (by decide),
            if_neg (by decide), if_neg (by decide), if_neg (by decide),
            if_neg (by decide), if_neg (by decide), if_pos trivial]
          have hinf : ¬(((ip ++ (fp ++ ep)) ++ rest).take 8 =
              ['I', 'n', 'f', 'i', 'n', 'i', 't', 'y']) := by
            rcases hip with rfl | ⟨c0, ds, rfl, hdig, hnz, hds⟩
            · intro he
              simp at he
            · intro he
              rw [List.cons_append, List.cons_append, List.take_succ_cons]
                at he
              have : c0 = 'I' := (List.cons.injEq _ _ _ _).mp he |>.1
              rw [this] at hdig
              cases hdig
          rw [if_neg hinf]
          rw [show '-' :: ((ip ++ (fp ++ ep)) ++ rest) =
            ('-' :: (ip ++ (fp ++ ep))) ++ rest from rfl, ← ht0, hpn]
    · subst h1
      cases fuel with
      | zero => simp [dumpsList] at hlen
      | succ f => simp [parseJF, dumpsList]
    · subst h2
      cases fuel with
      | zero => simp [dumpsList] at hlen
      | succ f => simp [parseJF, dumpsList]
    · subst h3
      cases fuel with
      | zero => simp [dumpsList] at hlen
      | succ f => simp [parseJF, dumpsList]
  | arr es hall ih =>
    intro fuel rest hlen hb
    cases es with
    | nil =>
      cases fuel with
      | zero => simp [dumpsList] at hlen
      | succ f => simp [parseJF, dumpsList, skipWs_not_ws _ _ (by decide : jsonWsChar ']' = false)]
    | cons v vs =>
      cases fuel with
      | zero => simp [dumpsList] at hlen
      | succ f =>
        have hwf : JWf v := hall v (by simp)
        have hlen' : (dumpsList v).length + (dumpsArrTail vs).length + 2 ≤ f := by
          rw [show dumpsList (.arr (v :: vs)) =
            '[' :: (dumpsList v ++ (dumpsArrTail vs ++ [']'])) from rfl]
            at hlen
          rw [List.length_cons, List.length_append, List.length_append,
            List.length_singleton] at hlen
          omega
        have hin : dumpsList (.arr (v :: vs)) ++ rest =
            '[' :: (dumpsList v ++ (dumpsArrTail vs ++ (']' :: rest))) := by
          rw [show dumpsList (.arr (v :: vs)) =
            '[' :: (dumpsList v ++ (dumpsArrTail vs ++ [']'])) from rfl]
          simp [List.append_assoc]
        rw [hin]
        have helem : parseJF f 0
            (dumpsList v ++ (dumpsArrTail vs ++ (']' :: rest))) =
            some (v, dumpsArrTail vs ++ (']' :: rest)) :=
          ih v (by simp) f _ (by omega) (numBoundary_arrTail vs rest)
        have htail : parseJF f 1 (dumpsArrTail vs ++ (']' :: rest)) =
            some (.arr vs, rest) :=
          parseJF_arrTail vs
            (fun x hx => ⟨hall x (by simp [hx]), ih x (by simp [hx])⟩) f rest
            (by omega)
        rw [parseJF_step_arr, skipWs_dumps v hwf]
        obtain ⟨c0, t0, ht0, hws0, hbr0⟩ := dumps_head v hwf
        rw [ht0, List.cons_append]
        split
        · rename_i r2 heq
          exact absurd ((List.cons.injEq _ _ _ _).mp heq).1 hbr0
        · rw [← List.cons_append, ← ht0]
          simp only [helem, htail]
  | obj ms hall hnodup ih =>
    intro fuel rest hlen hb
    cases ms with
    | nil =>
      cases fuel with
      | zero => simp [dumpsList] at hlen
      | succ f => simp [parseJF, dumpsList, skipWs_not_ws _ _ (by decide : jsonWsChar '}' = false)]
    | cons m ms2 =>
      obtain ⟨k, v⟩ := m
      cases fuel with
      | zero => simp [dumpsList] at hlen
      | succ f =>
        have hwf : JWf v := hall (k, v) (by simp)
        have hlen' : (dumpsList v).length + (dumpsObjTail ms2).length + 2 ≤ f := by
          rw [show dumpsList (.obj ((k, v) :: ms2)) =
            '{' :: (dumpsMember (k, v) ++ (dumpsObjTail ms2 ++ ['}']))
            from rfl] at hlen
          rw [List.length_cons, List.length_append, List.length_append,
            List.length_singleton, dumpsMember, List.length_append,
            quoteString, List.length_cons, List.length_cons,
            List.length_cons, List.length_append] at hlen
          omega
        have hin : dumpsList (.obj ((k, v) :: ms2)) ++ rest =
            '{' :: ('"' :: ((k.data.map escChar).flatten ++
              ('"' :: ':' :: ' ' ::
                (dumpsList v ++ (dumpsObjTail ms2 ++ ('}' :: rest)))))) := by
          rw [show dumpsList (.obj ((k, v) :: ms2)) =
            '{' :: (dumpsMember (k, v) ++ (dumpsObjTail ms2 ++ ['}']))
            from rfl, dumpsMember, quoteString]
          simp [escString, List.append_assoc]
        rw [hin]
        have helem : parseJF f 0
            (dumpsList v ++ (dumpsObjTail ms2 ++ ('}' :: rest))) =
            some (v, dumpsObjTail ms2 ++ ('}' :: rest)) :=
          ih (k, v) (by simp) f _
            (by show (dumpsList v).length < f
                omega)
            (numBoundary_objTail ms2 rest)
        have htail : parseJF f 2 (dumpsObjTail ms2 ++ ('}' :: rest)) =
            some (.obj ms2, rest) :=
          parseJF_objTail ms2
            (fun kv hkv => ⟨hall kv (by simp [hkv]), ih kv (by simp [hkv])⟩)
            f rest (by omega)
        rw [parseJF_step_obj,
          skipWs_not_ws _ _ (by decide : jsonWsChar '"' = false)]
        simp only [parseStringBody_escape,
          skipWs_not_ws _ _ (by decide : jsonWsChar ':' = false),
          skipWs_space, skipWs_dumps v hwf, helem, htail]
        rw [collapseKeys_of_nodup _ hnodup]

theorem loads_wf (s : String) (v : Json) (h : pyJsonLoads s = some v) :
    JWf v := by
  rw [pyJsonLoads] at h
  split at h
  · rename_i v' rest hp
    split at h
    · cases h
      exact (parseJF_wf _).1 _ _ _ hp
    · cases h
  · cases h

theorem loads_dumps (v : Json) (hwf : JWf v) :
    pyJsonLoads (pyJsonDumps v) = some v := by
  have hskip : skipWs (dumpsList v) = dumpsList v := by
    have h2 := skipWs_dumps v hwf []
    rwa [List.append_nil] at h2
  have h := parseJF_dumps v hwf ((dumpsList v).length + 1) [] (by omega)
    numBoundary_nil
  rw [List.append_nil] at h
  show (match parseJF ((dumpsList v).length + 1) 0 (skipWs (dumpsList v)) with
    | some (v, rest) => if skipWs rest = [] then some v else none
    | none => none) = some v
  rw [hskip]
  simp only [h]
  rfl

theorem digit_ne_nl (c : Char) (h : c.isDigit = true) : c ≠ '\n' := by
  intro he
  rw [he] at h
  exact absurd h (by decide)

theorem hexDigitChar_ne_nl (n : Nat) (h : n < 16) : hexDigitChar n ≠ '\n' := by
  interval_cases n <;> decide

theorem toHex4_no_nl (n : Nat) : ∀ x ∈ toHex4 n, x ≠ '\n' := by
  intro x hx
  rw [toHex4] at hx
  fin_cases hx <;> exact hexDigitChar_ne_nl _ (Nat.mod_lt _ (by omega))

theorem escChar_no_nl (c : Char) : ∀ x ∈ escChar c, x ≠ '\n' := by
  intro x hx
  rw [escChar] at hx
  split at hx
  · fin_cases hx <;> decide
  · split at hx
    · fin_cases hx <;> decide
    · split at hx
      · fin_cases hx <;> decide
      · split at hx
        · fin_cases hx <;> decide
        · split at hx
          · fin_cases hx <;> decide
          · split at hx
            · fin_cases hx <;> decide
            · split at hx
              · fin_cases hx <;> decide
              · split at hx
                · rw [List.mem_cons, List.mem_cons] at hx
                  rcases hx with rfl | rfl | h
                  · decide
                  · decide
                  · exact toHex4_no_nl _ x h
                · split at hx
                  · rename_i h20 h7e
                    rw [List.mem_singleton] at hx
                    subst hx
                    intro he
                    rw [he] at h20
                    exact h20 (by decide)
                  · split at hx
                    · rw [List.mem_cons, List.mem_cons] at hx
                      rcases hx with rfl | rfl | h
                      · decide
                      · decide
                      · exact toHex4_no_nl _ x h
                    · rw [List.mem_cons, List.mem_cons,
                        List.mem_append, List.mem_cons, List.mem_cons] at hx
                      rcases hx with rfl | rfl | h | rfl | rfl | h
                      · decide
                      · decide
                      · exact toHex4_no_nl _ x h
                      · decide
                      · decide
                      · exact toHex4_no_nl _ x h

theorem quoteString_no_nl (k : String) : ∀ x ∈ quoteString k, x ≠ '\n' := by
  intro x hx
  rw [quoteString, List.mem_cons, List.mem_append, List.mem_singleton] at hx
  rcases hx with rfl | h | rfl
  · decide
  · rw [escString, List.mem_flatten] at h
    obtain ⟨l, hl, hxl⟩ := h
    rw [List.mem_map] at hl
    obtain ⟨c, _, rfl⟩ := hl
    exact escChar_no_nl c x hxl
  · decide

theorem numLit_no_nl (lit : String) (h : NumLitOk lit) :
    ∀ x ∈ lit.data, x ≠ '\n' := by
  intro x hx
  rcases h with hsh | h1 | h2 | h3
  · obtain ⟨sign, ip, fp, ep, hcs, hsign, hip, hfp, hep⟩ := hsh
    rw [hcs] at hx
    rw [List.mem_append, List.mem_append, List.mem_append] at hx
    rcases hx with hx | hx | hx | hx
    · rcases hsign with rfl | rfl
      · cases hx
      · rw [List.mem_singleton] at hx
        subst hx
        decide
    · rcases hip with rfl | ⟨c0, ds, rfl, hdig, hnz, hds⟩
      · rw [List.mem_singleton] at hx
        subst hx
        decide
      · rw [List.mem_cons] at hx
        rcases hx with rfl | h
        · exact digit_ne_nl _ hdig
        · exact digit_ne_nl _ (hds x h)
    · rcases hfp with rfl | ⟨ds, rfl, hne, hds⟩
      · cases hx
      · rw [List.mem_cons] at hx
        rcases hx with rfl | h
        · decide
        · exact digit_ne_nl _ (hds x h)
    · rcases hep with rfl | ⟨e, sg, ds, rfl, he, hsg, hne, hds⟩
      · cases hx
      · rw [List.mem_cons, List.mem_append] at hx
        rcases hx with rfl | h | h
        · rcases he with rfl | rfl
          · decide
          · decide
        · rcases hsg with rfl | rfl | rfl
          · cases h
          · rw [List.mem_singleton] at h
            subst h
            decide
          · rw [List.mem_singleton] at h
            subst h
            decide
        · exact digit_ne_nl _ (hds x h)
  · subst h1
    fin_cases hx <;> decide
  · subst h2
    fin_cases hx <;> decide
  · subst h3
    fin_cases hx <;> decide

theorem dumpsArrTail_no_nl (vs : List Json)
    (H : ∀ v ∈ vs, ∀ x ∈ dumpsList v, x ≠ '\n') :
    ∀ x ∈ dumpsArrTail vs, x ≠ '\n' := by
  induction vs with
  | nil => intro x hx; cases hx
  | cons v vs ih =>
    intro x hx
    rw [dumpsArrTail, List.mem_cons, List.mem_cons, List.mem_append] at hx
    rcases hx with rfl | rfl | h | h
    · decide
    · decide
    · exact H v (by simp) x h
    · exact ih (fun w hw => H w (by simp [hw])) x h

theorem dumpsObjTail_no_nl (ms : List (String × Json))
    (H : ∀ kv ∈ ms, ∀ x ∈ dumpsList kv.2, x ≠ '\n') :
    ∀ x ∈ dumpsObjTail ms, x ≠ '\n' := by
  induction ms with
  | nil => intro x hx; cases hx
  | cons m ms ih =>
    obtain ⟨k, v⟩ := m
    intro x hx
    rw [dumpsObjTail, List.mem_cons, List.mem_cons, List.mem_append] at hx
    rcases hx with rfl | rfl | h | h
    · decide
    · decide
    · rw [dumpsMember, List.mem_append, List.mem_cons, List.mem_cons] at h
      rcases h with h | rfl | rfl | h
      · exact quoteString_no_nl k x h
      · decide
      · decide
      · exact H (k, v) (by simp) x h
    · exact ih (fun kv hkv => H kv (by simp [hkv])) x h

theorem dumps_no_nl (v : Json) (hwf : JWf v) :
    ∀ x ∈ dumpsList v, x ≠ '\n' := by
  induction hwf with
  | null =>
    intro x hx
    fin_cases hx <;> decide
  | bool b =>
    cases b with
    | true =>
      intro x hx
      fin_cases hx <;> decide
    | false =>
      intro x hx
      fin_cases hx <;> decide
  | num lit hok => exact numLit_no_nl lit hok
  | str s => exact quoteString_no_nl s
  | arr es hall ih =>
    cases es with
    | nil =>
      intro x hx
      fin_cases hx <;> decide
    | cons v vs =>
      intro x hx
      rw [show dumpsList (.arr (v :: vs)) =
        '[' :: (dumpsList v ++ (dumpsArrTail vs ++ [']'])) from rfl] at hx
      rw [List.mem_cons, List.mem_append, List.mem_append,
        List.mem_singleton] at hx
      rcases hx with rfl | h | h | rfl
      · decide
      · exact ih v (by simp) x h
      · exact dumpsArrTail_no_nl vs (fun w hw => ih w (by simp [hw])) x h
      · decide
  | obj ms hall hnodup ih =>
    cases ms with
    | nil =>
      intro x hx
      fin_cases hx <;> decide
    | cons m ms2 =>
      obtain ⟨k, v⟩ := m
      intro x hx
      rw [show dumpsList (.obj ((k, v) :: ms2)) =
        '{' :: (dumpsMember (k, v) ++ (dumpsObjTail ms2 ++ ['}']))
        from rfl] at hx
      rw [List.mem_cons, List.mem_append, List.mem_append,
        List.mem_singleton] at hx
      rcases hx with rfl | h | h | rfl
      · decide
      · rw [dumpsMember, List.mem_append, List.mem_cons, List.mem_cons] at h
        rcases h with h | rfl | rfl | h
        · exact quoteString_no_nl k x h
        · decide
        · decide
        · exact ih (k, v) (by simp) x h
      · exact dumpsObjTail_no_nl ms2
          (fun kv hkv => ih kv (by simp [hkv])) x h
      · decide

theorem splitNL_no_nl (cs : List Char) (h : ∀ c ∈ cs, c ≠ '\n') :
    splitNL cs = [cs] := by
  induction cs with
  | nil => rfl
  | cons c cs ih =>
    rw [splitNL, if_neg (h c (by simp))]
    rw [ih (fun d hd => h d (by simp [hd]))]

theorem pyLines_single (s : String) (h : ∀ c ∈ s.data, c ≠ '\n') :
    pyLines s = [s] := by
  rw [pyLines, splitNL_no_nl s.data h]
  rfl

/-- Claim C7: for a `.jsonl` line that is valid JSON (parsing to an
object) and whose sample was produced by re-serialization (no truthy
`text`/`content` extraction applied), feeding the produced sample back
through `read_data` as a single `.jsonl` line returns exactly that
sample. -/

theorem c7_roundtrip (line : String) (ms : List (String × Json))
    (hparse : pyJsonLoads (pyStrip line) = some (.obj ms))
    (hext : firstTruthyGet ms ["text", "content"] = none)
    (s : String)
    (hs : jsonlLineSample (pyStrip line) = .ok (some s)) :
    read_data s ".jsonl" = .ok [s] := by
  have hwf : JWf (.obj ms) := loads_wf _ _ hparse
  have hs' : s = pyJsonDumps (.obj ms) := by
    simp only [jsonlLineSample, hparse, hext] at hs
    split at hs
    · rw [← pyStrip_dumps_obj ms]
      exact (Option.some.injEq _ _).mp ((Except.ok.injEq _ _).mp hs) |>.symm
    · simp at hs
  subst hs'
  have hsample : jsonlLineSample (pyJsonDumps (.obj ms)) =
      .ok (some (pyJsonDumps (.obj ms))) := by
    simp only [jsonlLineSample, loads_dumps _ hwf, hext]
    rw [if_pos ⟨pyJsonDumps_obj_ne ms, by
      rw [pyStrip_dumps_obj]; exact pyJsonDumps_obj_ne ms⟩]
    rw [pyStrip_dumps_obj]
  rw [read_data, if_neg (by decide), if_neg (by decide), if_pos rfl]
  rw [pyLines_single (pyJsonDumps (.obj ms)) (dumps_no_nl _ hwf)]
  rw [processJsonlLines, pyStrip_dumps_obj, if_neg (pyJsonDumps_obj_ne ms)]
  simp only [hsample]
  rfl

theorem c7_roundtrip_witness :
    read_data "\x7b\"k\": 0\x7d" ".jsonl" =
      Except.ok ["\x7b\"k\": 0\x7d"] :=
  c7_roundtrip "\x7b\"k\": 0\x7d" [("k", Json.num "0")] rfl rfl
    "\x7b\"k\": 0\x7d" rfl

end LlmTuner
